import Mathlib

/-!
# Identity delegation between the auth service and the user service

A shallow embedding of the three request handlers of
`services/auth-service/src/index.js` (`/login`, `/register`, `/verify`), of the
bootstrap in `services/auth-service/src/initDb.js`, and of the `/me` handler of
`services/user-service/src/index.js`.

* JavaScript strings are `String`; a value that may be `undefined` is an `Option`.
* A JSON body is a `Json` tree; a response is a status code with a body.
* The `users` table is a list of rows together with the `SERIAL` counter and
  the rule by which the store rejects a call; a rejected call throws, and the
  `catch` block of the handler answers.
* Every call a handler makes to a collaborator (token verifier, upstream HTTP
  call, local store) is recorded in a list of `Effect`s returned next to the
  response, so that "is never invoked" and "exactly once" are statements
  about that list.
* Time is the number of seconds since the epoch, as `jsonwebtoken` sees it.
-/

namespace Delegation

/-! ## JavaScript values -/

/-- Splitting a list of characters at every occurrence of `sep`, as
`String.prototype.split` does with a one-character separator: the result is
never empty, and two adjacent separators give an empty piece. -/
def splitChars (sep : Char) : List Char → List (List Char)
  | [] => [[]]
  | c :: cs =>
    if c = sep then [] :: splitChars sep cs
    else
      match splitChars sep cs with
      | [] => [[c]]
      | w :: ws => (c :: w) :: ws

/-- The JavaScript call `s.split(sep)` for a one-character `sep`. -/
def jsSplit (sep : Char) (s : String) : List String :=
  (splitChars sep s.data).map String.mk

/-- JavaScript truthiness of a value that is either `undefined` or a string:
`undefined` and the empty string are falsy. -/
def truthy : Option String → Bool
  | none => false
  | some s => s != ""

/-- A JSON value, as sent in a request or response body. -/
inductive Json where
  | null : Json
  | bool (b : Bool) : Json
  | num (n : Nat) : Json
  | str (s : String) : Json
  | obj (fields : List (String × Json)) : Json

/-- Looking a key up in the field list of an object. -/
def lookupField (k : String) : List (String × Json) → Option Json
  | [] => none
  | (k', v) :: rest => if k' = k then some v else lookupField k rest

/-- The thrown values a handler can catch, told apart the way the handlers do:
by `error.name` for the token library and by `err.response` for axios. -/
inductive Thrown where
  | jsonWebTokenError : Thrown
  | tokenExpiredError : Thrown
  | otherJwtError : Thrown
  | typeError : Thrown
  | storeError (uniqueViolation : Bool) : Thrown
  | axiosError (response : Option (Nat × Json)) : Thrown

/-- Property access `v.k` on a possibly-undefined value: it throws a
`TypeError` on `undefined` and `null`, reads the field of an object, and is
`undefined` on the other primitives. -/
def getProp (v : Option Json) (k : String) : Except Thrown (Option Json) :=
  match v with
  | none => .error .typeError
  | some .null => .error .typeError
  | some (.obj fields) => .ok (lookupField k fields)
  | some _ => .ok none

/-- An HTTP response: `res.status(status).json(body)`. -/
structure Response where
  status : Nat
  body : Json

/-- The body `{ message }`. -/
def messageBody (m : String) : Json := .obj [("message", .str m)]

/-- The body `{ valid: false, message }`. -/
def invalidBody (m : String) : Json := .obj [("valid", .bool false), ("message", .str m)]

/-! ## The users table -/

/-- A row of the `users` table: `id SERIAL PRIMARY KEY, email TEXT UNIQUE NOT
NULL, password TEXT NOT NULL`. -/
structure UserRow where
  id : Nat
  email : String
  password : String
deriving DecidableEq, Repr

/-- The state of the store: the rows of `users`, the next value of the
sequence behind `id SERIAL`, and which calls `pool.query(sql, params)` the store
rejects on the values of their parameters. What the store rejects is its own
business and not part of the sources: a text with a NUL character, for one, and
every call when the store cannot be reached. -/
structure Db where
  rows : List UserRow
  nextId : Nat
  refuses : List String → Bool

/-- The NUL character, which the store does not take inside a text value. -/
def nul : Char := Char.ofNat 0

/-- The rule of a store that rejects a text value with a NUL character and
nothing else. -/
def refusesNul (params : List String) : Bool :=
  params.any (fun param => decide (nul ∈ param.data))

/-- The rule of a store that cannot be reached: every call is rejected. -/
def refusesAll (_ : List String) : Bool := true

/-- The rows matched by `SELECT * FROM users WHERE email = $1`. -/
def selectByEmail (db : Db) (email : String) : List UserRow :=
  db.rows.filter (fun r => r.email = email)

/-- The rows matched by `SELECT * FROM users WHERE id = $1`. -/
def selectById (rows : List UserRow) (id : Nat) : List UserRow :=
  rows.filter (fun r => r.id = id)

/-- The statement `INSERT INTO users (email, password) VALUES ($1, $2)
RETURNING id, email`, with the store it leaves. A rejected call leaves the
store as it is. Otherwise the sequence is advanced whether or not the row is
accepted, and the row is refused with a uniqueness error when its email or its
identifier is already in the table. -/
def insertUser (db : Db) (email password : String) : Except Thrown UserRow × Db :=
  if db.refuses [email, password] then
    (.error (.storeError false), db)
  else if db.rows.any (fun r => r.email = email || r.id = db.nextId) then
    (.error (.storeError true), ⟨db.rows, db.nextId + 1, db.refuses⟩)
  else
    (.ok ⟨db.nextId, email, password⟩,
      ⟨db.rows ++ [⟨db.nextId, email, password⟩], db.nextId + 1, db.refuses⟩)

/-- The statement `INSERT ... ON CONFLICT (email) DO NOTHING` of the bootstrap:
a row whose email is present is skipped without an error. -/
def insertUserOnConflictDoNothing (db : Db) (email password : String) : Db :=
  if db.refuses [email, password] then db
  else if db.rows.any (fun r => r.email = email) then ⟨db.rows, db.nextId + 1, db.refuses⟩
  else (insertUser db email password).2

/-- The store a freshly created database holds: no row, sequence at 1. It is
taken to reject a text with a NUL character and nothing else. -/
def emptyDb : Db := ⟨[], 1, refusesNul⟩

/-- The bootstrap `initDb`: the table is created if missing (an existing one is
left as it is) and the test user is inserted unless its email is present. -/
def initDb (existing : Option Db) : Db :=
  insertUserOnConflictDoNothing (existing.getD emptyDb) "test@example.com" "password"

/-- The invariant of the table: emails are pairwise distinct and every
identifier was handed out by the sequence. -/
def Db.WF (db : Db) : Prop :=
  (db.rows.map (fun r => r.email)).Nodup ∧ ∀ r ∈ db.rows, r.id < db.nextId

/-! ## Collaborators -/

/-- A call made by a handler to one of its collaborators. -/
inductive Effect where
  | jwtVerify (token secret : String) : Effect
  | httpGetVerify (authorization : String) : Effect
  | storeQuery (param : Option Json) : Effect

/-- The two functions of the `jsonwebtoken` package the auth service calls.
`sign userId email secret lifetime now` stands for
`jwt.sign({ userId, email }, secret, { expiresIn })` and
`verify token secret now` for `jwt.verify(token, secret)`; either may throw. -/
structure JwtLib where
  sign : Nat → String → String → Nat → Nat → Except Thrown String
  verify : String → String → Nat → Except Thrown Json

/-- The lifetime `"1h"` of an issued token, in seconds. -/
def oneHour : Nat := 3600

/-! ## The token library -/

/-- The content of a token: subject identifier, subject email, issuance time
and expiry, the last two in seconds. -/
structure Claims where
  userId : Nat
  email : String
  iat : Nat
  exp : Nat
deriving DecidableEq, Repr

/-- The payload object `jwt.verify` returns for a token carrying `c`. -/
def Claims.toJson (c : Claims) : Json :=
  .obj [("userId", .num c.userId), ("email", .str c.email), ("iat", .num c.iat),
    ("exp", .num c.exp)]

/-- Modelled from the spec: the primitives of the `jsonwebtoken` package, which
is not part of the sources. `mac secret input` is the signature segment for a
signing input, `encode` and `decode` write and read the payload segment, and
`header` is the header segment of every issued token. -/
structure JwtCodec where
  mac : String → String → String
  encode : Claims → String
  decode : String → Option Claims
  header : String

/-- The signing input of a token: header segment, a dot, payload segment. -/
def signingInput (h p : String) : String := h ++ "." ++ p

/-- Modelled from the spec: `jwt.sign` of the `jsonwebtoken` package, which is
not part of the sources. A token is "a signed, time-bounded assertion carrying
subject identifier, subject email, issuance time, expiry (fixed lifetime from
issuance)": three segments joined by dots, the third being the signature of
the first two under the secret. -/
def jwtSign (codec : JwtCodec) (userId : Nat) (email secret : String) (lifetime now : Nat) :
    Except Thrown String :=
  let p := codec.encode ⟨userId, email, now, now + lifetime⟩
  .ok (signingInput codec.header p ++ "." ++ codec.mac secret (signingInput codec.header p))

/-- Modelled from the spec: `jwt.verify` of the `jsonwebtoken` package, which
is not part of the sources. "Cryptographically verify the signature against
the shared secret and check the expiry": a token that does not have three
segments, whose payload cannot be read or whose signature is not the one the
secret gives fails with `JsonWebTokenError`; after that, a token whose expiry
has been reached fails with `TokenExpiredError`; otherwise the payload is
returned. -/
def jwtVerify (codec : JwtCodec) (token secret : String) (now : Nat) : Except Thrown Json :=
  match jsSplit '.' token with
  | [h, p, sig] =>
    (match codec.decode p with
      | none => .error .jsonWebTokenError
      | some c =>
        if sig != codec.mac secret (signingInput h p) then .error .jsonWebTokenError
        else if now ≥ c.exp then .error .tokenExpiredError
        else .ok c.toJson)
  | _ => .error .jsonWebTokenError

/-- The token library built on a codec. -/
def jwtLib (codec : JwtCodec) : JwtLib := ⟨jwtSign codec, jwtVerify codec⟩

/-- A string without the character `ch`. -/
def Free (ch : Char) (s : String) : Prop := ch ∉ s.data

instance (ch : Char) (s : String) : Decidable (Free ch s) := by
  unfold Free; infer_instance

/-- What the library guarantees about its primitives: a written payload reads
back as itself, and no segment contains a dot or a space (the segments are
base64url text). -/
structure JwtCodec.Lawful (codec : JwtCodec) : Prop where
  decode_encode : ∀ c, codec.decode (codec.encode c) = some c
  header_dot : Free '.' codec.header
  header_space : Free ' ' codec.header
  encode_dot : ∀ c, Free '.' (codec.encode c)
  encode_space : ∀ c, Free ' ' (codec.encode c)
  mac_dot : ∀ k m, Free '.' (codec.mac k m)
  mac_space : ∀ k m, Free ' ' (codec.mac k m)

/-- The signature of a token matches the secret: the token has three segments
with a readable payload, and the third is the signature the secret gives for
the first two. -/
def SignatureMatches (codec : JwtCodec) (token secret : String) : Prop :=
  ∃ h p sig, jsSplit '.' token = [h, p, sig] ∧ (codec.decode p).isSome = true ∧
    sig = codec.mac secret (signingInput h p)

/-- The claims carried by a token, when it has three segments and a readable
payload. -/
def claimsOf (codec : JwtCodec) (token : String) : Option Claims :=
  match jsSplit '.' token with
  | [_, p, _] => codec.decode p
  | _ => none

/-! ### A concrete codec

A codec in which numbers are written in unary and text is written with the
dot, the space and the letter `z` escaped by a `z`. It shows that the
guarantees of `JwtCodec.Lawful` can be met, and gives the handlers something to
run on. -/

/-- The number `n` in unary: `n` letters `a` closed by a `b`. -/
def unary (n : Nat) : List Char := List.replicate n 'a' ++ ['b']

/-- Reading a unary number off the front of a text. -/
def readNat : List Char → Option (Nat × List Char)
  | [] => none
  | c :: cs =>
    if c = 'a' then (readNat cs).map (fun r => (r.1 + 1, r.2))
    else if c = 'b' then some (0, cs)
    else none

/-- Escaping: a dot becomes `zd`, a space `zs`, a `z` becomes `zz`. -/
def escape : List Char → List Char
  | [] => []
  | c :: cs =>
    if c = '.' then 'z' :: 'd' :: escape cs
    else if c = ' ' then 'z' :: 's' :: escape cs
    else if c = 'z' then 'z' :: 'z' :: escape cs
    else c :: escape cs

/-- Undoing `escape`. -/
def unescape : List Char → List Char
  | [] => []
  | [c] => [c]
  | c :: d :: cs =>
    if c = 'z' then (if d = 'd' then '.' else if d = 's' then ' ' else d) :: unescape cs
    else c :: unescape (d :: cs)

/-- The concrete codec. -/
def plainCodec : JwtCodec where
  mac := fun k m => String.mk (escape (k.data ++ m.data))
  encode := fun c =>
    String.mk (unary c.userId ++ (unary c.iat ++ (unary c.exp ++ escape c.email.data)))
  decode := fun s =>
    match readNat s.data with
    | none => none
    | some (userId, r1) =>
      match readNat r1 with
      | none => none
      | some (iat, r2) =>
        match readNat r2 with
        | none => none
        | some (exp, r3) => some ⟨userId, String.mk (unescape r3), iat, exp⟩
  header := "HS256"

/-- A codec whose signature depends on the secret only, so that every two
signing inputs have the same signature: the extreme case of a collision, which
any signature of bounded length has for some two signing inputs. -/
def collidingCodec : JwtCodec where
  mac := fun k _ => String.mk (escape k.data)
  encode := plainCodec.encode
  decode := plainCodec.decode
  header := plainCodec.header

/-! ## The auth service -/

namespace AuthService

/-- The fields `email` and `password` of a request body; each may be missing,
and one that is present is a string. -/
structure Credentials where
  email : Option String
  password : Option String

/-- The function `getUser`: the first row of `SELECT * FROM users WHERE email = $1`,
or `undefined`; an error of the store is logged and thrown again. -/
def getUser (db : Db) (email : String) : Except Thrown (Option UserRow) :=
  if db.refuses [email] then .error (.storeError false)
  else .ok (selectByEmail db email).head?

/-- The handler of `POST /login`. -/
def login (lib : JwtLib) (secret : String) (now : Nat) (db : Db) (body : Credentials) :
    Response :=
  if !truthy body.email || !truthy body.password then
    ⟨400, messageBody "Email and password are required"⟩
  else
    match getUser db (body.email.getD "") with
    | .error _ => ⟨500, messageBody "Internal server error"⟩
    | .ok none => ⟨401, messageBody "Invalid credentials"⟩
    | .ok (some user) =>
      if user.password != body.password.getD "" then
        ⟨401, messageBody "Invalid credentials"⟩
      else
        match lib.sign user.id user.email secret oneHour now with
        | .ok token => ⟨200, .obj [("token", .str token)]⟩
        | .error _ => ⟨500, messageBody "Internal server error"⟩

/-- The handler of `POST /register`, with the store it leaves. Other requests
may run while the handler awaits the existence check; `between` is what they
do to the store before the `INSERT` is executed. -/
def registerWith (between : Db → Db) (db : Db) (body : Credentials) : Response × Db :=
  if !truthy body.email || !truthy body.password then
    (⟨400, messageBody "Email and password are required"⟩, db)
  else
    match getUser db (body.email.getD "") with
    | .error _ => (⟨500, messageBody "Internal server error"⟩, db)
    | .ok (some _) => (⟨409, messageBody "User already exists"⟩, db)
    | .ok none =>
      match insertUser (between db) (body.email.getD "") (body.password.getD "") with
      | (.ok row, db') =>
        (⟨201, .obj [("message", .str "User created successfully"),
            ("user", .obj [("id", .num row.id), ("email", .str row.email)])]⟩, db')
      | (.error _, db') => (⟨500, messageBody "Internal server error"⟩, db')

/-- The handler of `POST /register` when no other request touches the store
while it runs. -/
def register (db : Db) (body : Credentials) : Response × Db :=
  registerWith id db body

/-- A field of an object literal: `JSON.stringify` leaves out a field whose
value is `undefined`. -/
def optField (k : String) : Option Json → List (String × Json)
  | none => []
  | some v => [(k, v)]

/-- The body `{ valid: true, user: { userId, email } }`. -/
def validBody (userId email : Option Json) : Json :=
  .obj [("valid", .bool true), ("user", .obj (optField "userId" userId ++ optField "email" email))]

/-- The `catch` block of `GET /verify`: the response chosen by `error.name`. -/
def verifyCatch : Thrown → Response
  | .jsonWebTokenError => ⟨401, invalidBody "Invalid token"⟩
  | .tokenExpiredError => ⟨401, invalidBody "Token expired"⟩
  | _ => ⟨500, invalidBody "Internal server error"⟩

/-- The handler of `GET /verify`, with the calls it makes to the token
verifier. -/
def verify (lib : JwtLib) (secret : String) (now : Nat) (authHeader : Option String) :
    Response × List Effect :=
  if !truthy authHeader then
    (⟨401, invalidBody "Missing token"⟩, [])
  else
    let token := (jsSplit ' ' (authHeader.getD ""))[1]?
    if !truthy token then
      (⟨401, invalidBody "Invalid token format"⟩, [])
    else
      (match lib.verify (token.getD "") secret now with
        | .ok decoded =>
          (match getProp (some decoded) "userId", getProp (some decoded) "email" with
            | .ok userId, .ok email => ⟨200, validBody userId email⟩
            | .error e, _ => verifyCatch e
            | _, .error e => verifyCatch e)
        | .error e => verifyCatch e,
       [Effect.jwtVerify (token.getD "") secret])

/-- What `GET /verify` does once the second piece of the header is known. -/
def verifyPiece (lib : JwtLib) (secret : String) (now : Nat) (token : Option String) :
    Response × List Effect :=
  if !truthy token then
    (⟨401, invalidBody "Invalid token format"⟩, [])
  else
    (match lib.verify (token.getD "") secret now with
      | .ok decoded =>
        (match getProp (some decoded) "userId", getProp (some decoded) "email" with
          | .ok userId, .ok email => ⟨200, validBody userId email⟩
          | .error e, _ => verifyCatch e
          | _, .error e => verifyCatch e)
      | .error e => verifyCatch e,
     [Effect.jwtVerify (token.getD "") secret])

end AuthService

/-! ## The user service -/

namespace UserService

/-- What the HTTP call to the auth service comes back with: a reply with a
status and a body, or no reply at all (connection refused, timeout). -/
inductive HttpOutcome where
  | reply (status : Nat) (data : Json) : HttpOutcome
  | noReply : HttpOutcome

/-- The call `axios.get(url, ...)` on an outcome: it resolves with the reply
when the status is in the 2xx range and otherwise throws an error that carries
the reply as `err.response`, or no `response` when there was no reply. -/
def axiosGet : HttpOutcome → Except Thrown (Nat × Json)
  | .reply status data =>
    if 200 ≤ status ∧ status < 300 then .ok (status, data)
    else .error (.axiosError (some (status, data)))
  | .noReply => .error (.axiosError none)

/-- The user service's own store: either it fails to answer, or it holds the
rows of its `users` table. How the store reads a text as an integer, and which
texts it rejects, is its own business and not part of the sources, so it is a
component `readId` here. -/
inductive LocalStore where
  | failing : LocalStore
  | table (rows : List UserRow) (readId : String → Option Nat) : LocalStore

/-- The function `getUser`: the first row of `SELECT * FROM users WHERE id = $1`,
or `undefined`. An `undefined` or `null` parameter is sent as `NULL`, which
equals no identifier; a string is read as an integer by the store, which
rejects a text it cannot read; a boolean or an object is sent as a text that is
no integer. -/
def getUser (store : LocalStore) (userId : Option Json) : Except Thrown (Option UserRow) :=
  match store with
  | .failing => .error (.storeError false)
  | .table rows readId =>
    match userId with
    | none => .ok none
    | some .null => .ok none
    | some (.num n) => .ok (selectById rows n).head?
    | some (.str s) =>
      (match readId s with
        | some n => .ok (selectById rows n).head?
        | none => .error (.storeError false))
    | some _ => .error (.storeError false)

/-- The expression `response.data.user.userId`. -/
def readUserId (data : Json) : Except Thrown (Option Json) :=
  (getProp (some data) "user").bind (fun u => getProp u "userId")

/-- The number of calls to the auth service in a list of calls. -/
def upstreamCalls : List Effect → Nat
  | [] => 0
  | .httpGetVerify _ :: rest => upstreamCalls rest + 1
  | _ :: rest => upstreamCalls rest

/-- The `catch` block of `GET /me`. -/
def meCatch : Thrown → Response
  | .axiosError (some (401, _)) => ⟨401, messageBody "Invalid token"⟩
  | _ => ⟨500, messageBody "Internal server error"⟩

/-- The handler of `GET /me`, with the calls it makes: `upstream` is what the
auth service's `/verify` answers to a given `Authorization` header. -/
def me (upstream : String → HttpOutcome) (store : LocalStore) (authHeader : Option String) :
    Response × List Effect :=
  if !truthy authHeader then
    (⟨401, messageBody "Missing token"⟩, [])
  else
    let header := authHeader.getD ""
    match axiosGet (upstream header) with
    | .error e => (meCatch e, [Effect.httpGetVerify header])
    | .ok (_, data) =>
      match readUserId data with
      | .error e => (meCatch e, [Effect.httpGetVerify header])
      | .ok userId =>
        (match getUser store userId with
          | .error e => meCatch e
          | .ok none => meCatch .typeError
          | .ok (some user) => ⟨200, .obj [("id", .num user.id), ("email", .str user.email)]⟩,
         [Effect.httpGetVerify header, Effect.storeQuery userId])

end UserService

/-! ## Lemmas on splitting -/

theorem splitChars_ne_nil (sep : Char) (l : List Char) : splitChars sep l ≠ [] := by
  induction l with
  | nil => simp [splitChars]
  | cons c cs ih =>
    simp only [splitChars]
    split_ifs
    · simp
    · split <;> simp

theorem splitChars_cons_ne (sep c : Char) (cs : List Char) (h : c ≠ sep) :
    splitChars sep (c :: cs) =
      (c :: (splitChars sep cs).headD []) :: (splitChars sep cs).tail := by
  simp only [splitChars, h, if_false]
  cases hs : splitChars sep cs with
  | nil => exact absurd hs (splitChars_ne_nil sep cs)
  | cons w ws => simp

theorem splitChars_free (sep : Char) (l : List Char) (h : sep ∉ l) : splitChars sep l = [l] := by
  induction l with
  | nil => rfl
  | cons c cs ih =>
    simp only [List.mem_cons, not_or] at h
    rw [splitChars_cons_ne sep c cs (fun e => h.1 e.symm), ih h.2]
    rfl

theorem splitChars_append (sep : Char) (l r : List Char) (h : sep ∉ l) :
    splitChars sep (l ++ sep :: r) = l :: splitChars sep r := by
  induction l with
  | nil => simp [splitChars]
  | cons c cs ih =>
    simp only [List.mem_cons, not_or] at h
    rw [List.cons_append, splitChars_cons_ne sep c _ (fun e => h.1 e.symm), ih h.2]
    rfl

theorem jsSplit_free (sep : Char) (s : String) (h : Free sep s) : jsSplit sep s = [s] := by
  simp [jsSplit, splitChars_free sep s.data h]

theorem jsSplit_append (sep : Char) (s t : String) (h : Free sep s) :
    jsSplit sep (s ++ String.singleton sep ++ t) = s :: jsSplit sep t := by
  have hd : (s ++ String.singleton sep ++ t).data = s.data ++ sep :: t.data := by
    simp [String.data_append, String.singleton]
  simp [jsSplit, hd, splitChars_append sep s.data t.data h]

/-- The second element of a header made of a space-free scheme, one space and
the rest: the first piece of the rest. -/
theorem second_of_header (s rest : String) (h : Free ' ' s) :
    (jsSplit ' ' (s ++ " " ++ rest))[1]? = (jsSplit ' ' rest)[0]? := by
  have := jsSplit_append ' ' s rest h
  have e : String.singleton ' ' = " " := rfl
  rw [e] at this
  rw [this]
  simp

theorem truthy_some (s : String) : truthy (some s) = true ↔ s ≠ "" := by
  simp [truthy]

/-- The pieces of a split put back together with the separator. -/
theorem splitChars_three (sep : Char) (l h p sig : List Char)
    (e : splitChars sep l = [h, p, sig]) : l = h ++ sep :: (p ++ sep :: sig) := by
  induction l generalizing h with
  | nil => simp [splitChars] at e
  | cons c cs ih =>
    by_cases hc : c = sep
    · subst hc
      simp only [splitChars, if_true, List.cons.injEq] at e
      obtain ⟨e1, e2⟩ := e
      subst e1
      -- the rest has two pieces
      have : cs = p ++ c :: sig := by
        clear ih
        induction cs generalizing p with
        | nil => simp [splitChars] at e2
        | cons d ds ih2 =>
          by_cases hd : d = c
          · subst hd
            simp only [splitChars, if_true, List.cons.injEq] at e2
            obtain ⟨e3, e4⟩ := e2
            subst e3
            have hfree : d ∉ ds := by
              intro hmem
              clear ih2
              induction ds generalizing sig with
              | nil => simp at hmem
              | cons x xs ih3 =>
                by_cases hx : x = d
                · subst hx
                  simp [splitChars] at e4
                  exact splitChars_ne_nil _ _ e4.2
                · rw [splitChars_cons_ne d x xs hx] at e4
                  simp only [List.cons.injEq] at e4
                  have hxs : d ∈ xs := by
                    rcases List.mem_cons.mp hmem with h1 | h1
                    · exact absurd h1.symm hx
                    · exact h1
                  have hs : splitChars d xs = [(splitChars d xs).headD []] := by
                    cases hsx : splitChars d xs with
                    | nil => exact absurd hsx (splitChars_ne_nil _ _)
                    | cons w ws =>
                      rw [hsx] at e4
                      simp only [List.tail_cons] at e4
                      simp [e4.2]
                  exact ih3 _ hs hxs
            have := splitChars_free d ds hfree
            rw [this] at e4
            simp only [List.cons.injEq, and_true] at e4
            subst e4
            simp
          · rw [splitChars_cons_ne c d ds hd] at e2
            simp only [List.cons.injEq] at e2
            obtain ⟨e3, e4⟩ := e2
            cases hsd : splitChars c ds with
            | nil => exact absurd hsd (splitChars_ne_nil _ _)
            | cons w ws =>
              rw [hsd] at e3 e4
              simp only [List.headD_cons, List.tail_cons] at e3 e4
              subst e3 e4
              have := ih2 w hsd
              rw [this]
              simp
      rw [this]
      simp
    · rw [splitChars_cons_ne sep c cs hc] at e
      simp only [List.cons.injEq] at e
      obtain ⟨e1, e2⟩ := e
      cases hsd : splitChars sep cs with
      | nil => exact absurd hsd (splitChars_ne_nil _ _)
      | cons w ws =>
        rw [hsd] at e1 e2
        simp only [List.headD_cons, List.tail_cons] at e1 e2
        subst e1 e2
        have := ih w hsd
        rw [this]
        simp

theorem splitChars_mem_free (sep : Char) (l w : List Char) (h : w ∈ splitChars sep l) :
    sep ∉ w := by
  induction l generalizing w with
  | nil =>
    simp only [splitChars, List.mem_singleton] at h
    subst h; simp
  | cons c cs ih =>
    by_cases hc : c = sep
    · subst hc
      simp only [splitChars, if_true, List.mem_cons] at h
      rcases h with h | h
      · subst h; simp
      · exact ih w h
    · rw [splitChars_cons_ne sep c cs hc] at h
      cases hsd : splitChars sep cs with
      | nil => exact absurd hsd (splitChars_ne_nil _ _)
      | cons v vs =>
        rw [hsd] at h
        simp only [List.headD_cons, List.tail_cons, List.mem_cons] at h
        rcases h with h | h
        · subst h
          have := ih v (by rw [hsd]; simp)
          simp only [List.mem_cons, not_or]
          exact ⟨fun e => hc e.symm, this⟩
        · exact ih w (by rw [hsd]; simp [h])

theorem jsSplit_three (sep : Char) (t h p sig : String) (e : jsSplit sep t = [h, p, sig]) :
    t = h ++ String.singleton sep ++ (p ++ String.singleton sep ++ sig) ∧
    Free sep h ∧ Free sep p ∧ Free sep sig := by
  have e' : splitChars sep t.data = [h.data, p.data, sig.data] := by
    have := congrArg (List.map String.data) e
    simpa [jsSplit, Function.comp_def] using this
  refine ⟨?_, ?_, ?_, ?_⟩
  · apply String.ext
    rw [splitChars_three sep _ _ _ _ e']
    simp [String.data_append, String.singleton]
  · exact splitChars_mem_free sep t.data h.data (by rw [e']; simp)
  · exact splitChars_mem_free sep t.data p.data (by rw [e']; simp)
  · exact splitChars_mem_free sep t.data sig.data (by rw [e']; simp)

theorem jsSplit_segments (h p sig : String) (hh : Free '.' h) (hp : Free '.' p)
    (hs : Free '.' sig) : jsSplit '.' (signingInput h p ++ "." ++ sig) = [h, p, sig] := by
  have e : signingInput h p ++ "." ++ sig =
      h ++ String.singleton '.' ++ (p ++ String.singleton '.' ++ sig) := by
    simp only [signingInput, String.append_assoc]; rfl
  rw [e, jsSplit_append '.' h _ hh, jsSplit_append '.' p _ hp, jsSplit_free '.' sig hs]

theorem free_append (ch : Char) (s t : String) (hs : Free ch s) (ht : Free ch t) :
    Free ch (s ++ t) := by
  simp only [Free, String.data_append, List.mem_append, not_or]
  exact ⟨hs, ht⟩

theorem free_of_append (ch : Char) (s t : String) (h : Free ch (s ++ t)) :
    Free ch s ∧ Free ch t := by
  simp only [Free, String.data_append, List.mem_append, not_or] at h
  exact h

/-- The token issued for given claims under a secret. -/
theorem jwtSign_eq (codec : JwtCodec) (userId : Nat) (email secret : String)
    (lifetime now : Nat) :
    jwtSign codec userId email secret lifetime now =
      .ok (signingInput codec.header (codec.encode ⟨userId, email, now, now + lifetime⟩) ++ "." ++
        codec.mac secret
          (signingInput codec.header (codec.encode ⟨userId, email, now, now + lifetime⟩))) :=
  rfl

theorem issued_split (codec : JwtCodec) (hc : codec.Lawful) (c : Claims) (secret : String) :
    jsSplit '.' (signingInput codec.header (codec.encode c) ++ "." ++
        codec.mac secret (signingInput codec.header (codec.encode c))) =
      [codec.header, codec.encode c,
        codec.mac secret (signingInput codec.header (codec.encode c))] :=
  jsSplit_segments _ _ _ hc.header_dot (hc.encode_dot c) (hc.mac_dot _ _)

theorem issued_free (codec : JwtCodec) (hc : codec.Lawful) (c : Claims) (secret : String) :
    Free ' ' (signingInput codec.header (codec.encode c) ++ "." ++
        codec.mac secret (signingInput codec.header (codec.encode c))) := by
  unfold signingInput
  exact free_append _ _ _ (free_append _ _ _ (free_append _ _ _
    (free_append _ _ _ hc.header_space (by decide)) (hc.encode_space c)) (by decide))
    (hc.mac_space _ _)

theorem issued_ne (h p sig : String) : signingInput h p ++ "." ++ sig ≠ "" := by
  intro e
  have := congrArg String.data e
  simp [signingInput, String.data_append] at this

theorem issued_verify (codec : JwtCodec) (hc : codec.Lawful) (c : Claims) (secret : String)
    (now : Nat) :
    jwtVerify codec (signingInput codec.header (codec.encode c) ++ "." ++
        codec.mac secret (signingInput codec.header (codec.encode c))) secret now =
      if now ≥ c.exp then .error .tokenExpiredError else .ok c.toJson := by
  simp [jwtVerify, issued_split codec hc c secret, hc.decode_encode c]

theorem issued_claims (codec : JwtCodec) (hc : codec.Lawful) (c : Claims) (secret : String) :
    claimsOf codec (signingInput codec.header (codec.encode c) ++ "." ++
        codec.mac secret (signingInput codec.header (codec.encode c))) = some c := by
  simp [claimsOf, issued_split codec hc c secret, hc.decode_encode c]

/-! ## Lemmas on the store -/

theorem getUser_of_accepted (db : Db) (email : String) (h : db.refuses [email] = false) :
    AuthService.getUser db email = .ok (selectByEmail db email).head? := by
  simp [AuthService.getUser, h]

theorem getUser_eq_none (db : Db) (email : String) (hr : db.refuses [email] = false)
    (h : ∀ r ∈ db.rows, r.email ≠ email) :
    AuthService.getUser db email = .ok none := by
  have : selectByEmail db email = [] := by
    simp only [selectByEmail, List.filter_eq_nil_iff, decide_eq_true_eq]
    exact h
  simp [getUser_of_accepted db email hr, this]

theorem filter_head_mem {α : Type} (p : α → Bool) (l : List α) (a : α)
    (h : (l.filter p).head? = some a) : a ∈ l ∧ p a = true := by
  have hm : a ∈ l.filter p := by
    cases hf : l.filter p with
    | nil => rw [hf] at h; simp at h
    | cons x xs =>
      rw [hf] at h
      simp only [List.head?_cons, Option.some.injEq] at h
      simp [h]
  exact List.mem_filter.mp hm

theorem filter_head_some {α : Type} (p : α → Bool) (l : List α) (a : α) (ha : a ∈ l)
    (hp : p a = true) : ∃ b, (l.filter p).head? = some b := by
  have hm : a ∈ l.filter p := List.mem_filter.mpr ⟨ha, hp⟩
  cases hf : l.filter p with
  | nil => rw [hf] at hm; simp at hm
  | cons x xs => exact ⟨x, rfl⟩

theorem getUser_ok_inv (db : Db) (email : String) (r : Option UserRow)
    (h : AuthService.getUser db email = .ok r) :
    db.refuses [email] = false ∧ r = (selectByEmail db email).head? := by
  unfold AuthService.getUser at h
  split_ifs at h with hr
  simp only [Except.ok.injEq] at h
  exact ⟨by simpa using hr, h.symm⟩

theorem getUser_some (db : Db) (email : String) (u : UserRow)
    (h : AuthService.getUser db email = .ok (some u)) : u ∈ db.rows ∧ u.email = email := by
  have h2 := (getUser_ok_inv db email _ h).2
  have := filter_head_mem _ _ _ h2.symm
  simpa using this

theorem getUser_exists (db : Db) (email : String) (hr : db.refuses [email] = false)
    (h : ∃ r ∈ db.rows, r.email = email) :
    ∃ u, AuthService.getUser db email = .ok (some u) := by
  obtain ⟨r, hr', he⟩ := h
  obtain ⟨u, hu⟩ := filter_head_some (fun r : UserRow => decide (r.email = email)) db.rows r hr'
    (by simpa using he)
  exact ⟨u, by rw [getUser_of_accepted db email hr]; simp [selectByEmail, hu]⟩

theorem insertUser_fresh (db : Db) (hwf : db.WF) (email password : String)
    (hr : db.refuses [email, password] = false)
    (hnew : ∀ r ∈ db.rows, r.email ≠ email) :
    insertUser db email password =
      (.ok ⟨db.nextId, email, password⟩,
        ⟨db.rows ++ [⟨db.nextId, email, password⟩], db.nextId + 1, db.refuses⟩) := by
  have hany : db.rows.any (fun r => r.email = email || r.id = db.nextId) = false := by
    rw [List.any_eq_false]
    intro r hr
    have h1 := hnew r hr
    have h2 : r.id ≠ db.nextId := Nat.ne_of_lt (hwf.2 r hr)
    simp [h1, h2]
  simp [insertUser, hany, hr]

theorem getUser_after_insert (db : Db) (row : UserRow) (n : Nat)
    (hr : db.refuses [row.email] = false)
    (hnew : ∀ r ∈ db.rows, r.email ≠ row.email) :
    AuthService.getUser ⟨db.rows ++ [row], n, db.refuses⟩ row.email = .ok (some row) := by
  have : db.rows.filter (fun r => decide (r.email = row.email)) = [] := by
    simp only [List.filter_eq_nil_iff, decide_eq_true_eq]
    exact hnew
  have hr' : (⟨db.rows ++ [row], n, db.refuses⟩ : Db).refuses [row.email] = false := hr
  rw [getUser_of_accepted _ _ hr']
  simp [selectByEmail, List.filter_append, this]

/-- The bootstrapped store satisfies the invariant. -/
theorem initDb_wf : (initDb none).WF := by
  constructor
  · decide
  · decide

/-- The result of an `INSERT` keeps the invariant of the table. -/
theorem insertUser_wf (db : Db) (hwf : db.WF) (email password : String) :
    (insertUser db email password).2.WF := by
  unfold insertUser
  split_ifs with hr hany
  · exact hwf
  · exact ⟨hwf.1, fun r hr => Nat.lt_succ_of_lt (hwf.2 r hr)⟩
  · simp only [List.any_eq_true, Bool.or_eq_true, decide_eq_true_eq, not_exists, not_and,
      not_or] at hany
    constructor
    · simp only [List.map_append, List.map_cons, List.map_nil]
      rw [List.nodup_append]
      refine ⟨hwf.1, by simp, ?_⟩
      intro a ha hb
      simp only [List.mem_map] at ha
      obtain ⟨r, hr, hre⟩ := ha
      simp only [List.mem_singleton] at hb
      exact (hany r hr).1 (hre.trans hb)
    · intro r hr
      simp only [List.mem_append, List.mem_singleton] at hr
      rcases hr with hr | hr
      · exact Nat.lt_succ_of_lt (hwf.2 r hr)
      · subst hr; exact Nat.lt_succ_self _

/-- A registration keeps the invariant of the table. -/
theorem register_wf (db : Db) (hwf : db.WF) (body : AuthService.Credentials) :
    (AuthService.register db body).2.WF := by
  unfold AuthService.register AuthService.registerWith
  split
  · exact hwf
  · split
    · exact hwf
    · exact hwf
    · simp only [id]
      have := insertUser_wf db hwf (body.email.getD "") (body.password.getD "")
      cases hi : insertUser db (body.email.getD "") (body.password.getD "") with
      | mk r db' =>
        rw [hi] at this
        cases r with
        | ok row => exact this
        | error e => exact this

/-! ## Lemmas on the concrete codec -/

theorem readNat_unary (n : Nat) (r : List Char) : readNat (unary n ++ r) = some (n, r) := by
  induction n with
  | zero => simp [unary, readNat]
  | succ n ih =>
    have h : unary (n + 1) ++ r = 'a' :: (unary n ++ r) := by
      simp [unary, List.replicate_succ]
    rw [h, readNat]
    simp [ih]

theorem unescape_escape (l : List Char) : unescape (escape l) = l := by
  induction l with
  | nil => rfl
  | cons c cs ih =>
    by_cases h1 : c = '.'
    · subst h1; simp [escape, unescape, ih]
    · by_cases h2 : c = ' '
      · subst h2; simp [escape, unescape, ih]
      · by_cases h3 : c = 'z'
        · subst h3; simp [escape, unescape, ih]
        · simp only [escape, h1, h2, h3, if_false]
          cases hcs : escape cs with
          | nil =>
            rw [hcs] at ih
            simp only [unescape] at ih ⊢
            rw [← ih]
          | cons d r =>
            rw [hcs] at ih
            simp only [unescape, h3, if_false, ih]

theorem unary_mem (n : Nat) (ch : Char) (h : ch ∈ unary n) : ch = 'a' ∨ ch = 'b' := by
  simp only [unary, List.mem_append, List.mem_replicate, List.mem_singleton] at h
  rcases h with ⟨_, h⟩ | h
  · exact Or.inl h
  · exact Or.inr h

theorem escape_dot (l : List Char) : '.' ∉ escape l := by
  induction l with
  | nil => simp [escape]
  | cons c cs ih =>
    simp only [escape]
    split_ifs with h1 h2 h3
    · simpa using ih
    · simpa using ih
    · simpa using ih
    · simp only [List.mem_cons, not_or]
      exact ⟨fun h => h1 h.symm, ih⟩

theorem escape_space (l : List Char) : ' ' ∉ escape l := by
  induction l with
  | nil => simp [escape]
  | cons c cs ih =>
    simp only [escape]
    split_ifs with h1 h2 h3
    · simpa using ih
    · simpa using ih
    · simpa using ih
    · simp only [List.mem_cons, not_or]
      exact ⟨fun h => h2 h.symm, ih⟩

theorem plainCodec_lawful : plainCodec.Lawful where
  decode_encode := by
    intro c
    simp [plainCodec, readNat_unary, unescape_escape]
  header_dot := by decide
  header_space := by decide
  encode_dot := by
    intro c h
    simp only [plainCodec, List.mem_append] at h
    rcases h with h | h | h | h
    · rcases unary_mem _ _ h with h | h <;> exact absurd h (by decide)
    · rcases unary_mem _ _ h with h | h <;> exact absurd h (by decide)
    · rcases unary_mem _ _ h with h | h <;> exact absurd h (by decide)
    · exact escape_dot _ h
  encode_space := by
    intro c h
    simp only [plainCodec, List.mem_append] at h
    rcases h with h | h | h | h
    · rcases unary_mem _ _ h with h | h <;> exact absurd h (by decide)
    · rcases unary_mem _ _ h with h | h <;> exact absurd h (by decide)
    · rcases unary_mem _ _ h with h | h <;> exact absurd h (by decide)
    · exact escape_space _ h
  mac_dot := fun k m h => escape_dot _ h
  mac_space := fun k m h => escape_space _ h

theorem collidingCodec_lawful : collidingCodec.Lawful where
  decode_encode := plainCodec_lawful.decode_encode
  header_dot := plainCodec_lawful.header_dot
  header_space := plainCodec_lawful.header_space
  encode_dot := plainCodec_lawful.encode_dot
  encode_space := plainCodec_lawful.encode_space
  mac_dot := fun k _ h => escape_dot _ h
  mac_space := fun k _ h => escape_space _ h

/-! ## The handlers of the auth service: header handling -/

open AuthService

theorem verify_nonempty (lib : JwtLib) (secret : String) (now : Nat) (h : String)
    (hne : h ≠ "") :
    verify lib secret now (some h) = verifyPiece lib secret now (jsSplit ' ' h)[1]? := by
  simp [verify, verifyPiece, truthy, hne]

theorem append_space_ne (s t : String) : s ++ " " ++ t ≠ "" := by
  intro h
  have := congrArg String.data h
  simp [String.data_append] at this

theorem head_jsSplit_free (t : String) (h : Free ' ' t) : (jsSplit ' ' t)[0]? = some t := by
  rw [jsSplit_free ' ' t h]; rfl

theorem head_jsSplit_append (t extra : String) (h : Free ' ' t) :
    (jsSplit ' ' (t ++ " " ++ extra))[0]? = some t := by
  have := jsSplit_append ' ' t extra h
  have e : String.singleton ' ' = " " := rfl
  rw [e] at this
  rw [this]; simp

theorem bearer_free : Free ' ' "Bearer" := by decide

theorem verify_scheme (lib : JwtLib) (secret : String) (now : Nat) (s t : String)
    (hs : Free ' ' s) (ht : Free ' ' t) :
    verify lib secret now (some (s ++ " " ++ t)) = verifyPiece lib secret now (some t) := by
  rw [verify_nonempty _ _ _ _ (append_space_ne s t), second_of_header s t hs,
    head_jsSplit_free t ht]

/-! ## The token library against the handler -/

/-- The three outcomes of `jwtVerify`. -/
theorem jwtVerify_cases (codec : JwtCodec) (token secret : String) (now : Nat) :
    (∃ c, SignatureMatches codec token secret ∧ claimsOf codec token = some c ∧ now < c.exp ∧
      jwtVerify codec token secret now = .ok c.toJson) ∨
    (∃ c, SignatureMatches codec token secret ∧ claimsOf codec token = some c ∧ c.exp ≤ now ∧
      jwtVerify codec token secret now = .error .tokenExpiredError) ∨
    (¬ SignatureMatches codec token secret ∧
      jwtVerify codec token secret now = .error .jsonWebTokenError) := by
  by_cases hex : ∃ h p sig, jsSplit '.' token = [h, p, sig]
  · obtain ⟨h, p, sig, heq⟩ := hex
    have hcl : claimsOf codec token = codec.decode p := by simp [claimsOf, heq]
    cases hd : codec.decode p with
    | none =>
      right; right
      refine ⟨?_, by simp [jwtVerify, heq, hd]⟩
      rintro ⟨h', p', sig', e1, e2, _⟩
      rw [heq] at e1
      simp only [List.cons.injEq, and_true] at e1
      obtain ⟨_, rfl, _⟩ := e1
      rw [hd] at e2
      simp at e2
    | some c =>
      by_cases hs : sig = codec.mac secret (signingInput h p)
      · by_cases hn : now ≥ c.exp
        · right; left
          refine ⟨c, ⟨h, p, sig, heq, by simp [hd], hs⟩, by rw [hcl, hd], hn, ?_⟩
          simp [jwtVerify, heq, hd, hs, hn]
        · left
          refine ⟨c, ⟨h, p, sig, heq, by simp [hd], hs⟩, by rw [hcl, hd],
            Nat.lt_of_not_ge hn, ?_⟩
          simp [jwtVerify, heq, hd, hs, hn]
      · right; right
        refine ⟨?_, ?_⟩
        · rintro ⟨h', p', sig', e1, _, e3⟩
          rw [heq] at e1
          simp only [List.cons.injEq, and_true] at e1
          obtain ⟨rfl, rfl, rfl⟩ := e1
          exact hs e3
        · simp [jwtVerify, heq, hd, hs]
  · right; right
    refine ⟨?_, ?_⟩
    · rintro ⟨h', p', sig', e1, _, _⟩
      exact hex ⟨h', p', sig', e1⟩
    · unfold jwtVerify
      split
      · rename_i h p sig heq
        exact absurd ⟨h, p, sig, heq⟩ hex
      · rfl

theorem verifyPiece_ok (codec : JwtCodec) (secret : String) (now : Nat) (token : String)
    (hne : token ≠ "") (c : Claims) (h : jwtVerify codec token secret now = .ok c.toJson) :
    verifyPiece (jwtLib codec) secret now (some token) =
      (⟨200, validBody (some (.num c.userId)) (some (.str c.email))⟩,
        [Effect.jwtVerify token secret]) := by
  simp [verifyPiece, truthy, hne, jwtLib, h, Claims.toJson, getProp, lookupField]

theorem verifyPiece_error (codec : JwtCodec) (secret : String) (now : Nat) (token : String)
    (hne : token ≠ "") (e : Thrown) (h : jwtVerify codec token secret now = .error e) :
    verifyPiece (jwtLib codec) secret now (some token) =
      (verifyCatch e, [Effect.jwtVerify token secret]) := by
  simp [verifyPiece, truthy, hne, jwtLib, h]

theorem verify_bearer (lib : JwtLib) (secret : String) (now : Nat) (token : String)
    (hfree : Free ' ' token) :
    verify lib secret now (some ("Bearer " ++ token)) =
      verifyPiece lib secret now (some token) :=
  verify_scheme lib secret now "Bearer" token bearer_free hfree

theorem signatureMatches_ne (codec : JwtCodec) (token secret : String)
    (h : SignatureMatches codec token secret) : token ≠ "" := by
  rintro rfl
  obtain ⟨h', p', sig', e, _⟩ := h
  have : jsSplit '.' "" = [""] := by decide
  rw [this] at e
  simp at e

/-- The answer of `/verify` to `Bearer <token>` for a space-free token, by the
three outcomes of the library. -/
theorem verify_bearer_cases (codec : JwtCodec) (secret : String) (now : Nat) (token : String)
    (hfree : Free ' ' token) :
    (∃ c, SignatureMatches codec token secret ∧ claimsOf codec token = some c ∧ now < c.exp ∧
      verify (jwtLib codec) secret now (some ("Bearer " ++ token)) =
        (⟨200, validBody (some (.num c.userId)) (some (.str c.email))⟩,
          [Effect.jwtVerify token secret])) ∨
    (∃ c, SignatureMatches codec token secret ∧ claimsOf codec token = some c ∧ c.exp ≤ now ∧
      (verify (jwtLib codec) secret now (some ("Bearer " ++ token))).1 =
        ⟨401, invalidBody "Token expired"⟩) ∨
    (¬ SignatureMatches codec token secret ∧
      ((verify (jwtLib codec) secret now (some ("Bearer " ++ token))).1 =
          ⟨401, invalidBody "Invalid token"⟩ ∨
       (verify (jwtLib codec) secret now (some ("Bearer " ++ token))).1 =
          ⟨401, invalidBody "Invalid token format"⟩)) := by
  rw [verify_bearer _ _ _ _ hfree]
  rcases jwtVerify_cases codec token secret now with ⟨c, h1, h2, h3, h4⟩ | ⟨c, h1, h2, h3, h4⟩ |
    ⟨h1, h4⟩
  · left
    exact ⟨c, h1, h2, h3, verifyPiece_ok codec secret now token (signatureMatches_ne _ _ _ h1) c h4⟩
  · right; left
    refine ⟨c, h1, h2, h3, ?_⟩
    rw [verifyPiece_error codec secret now token (signatureMatches_ne _ _ _ h1) _ h4]
    rfl
  · right; right
    refine ⟨h1, ?_⟩
    by_cases hne : token = ""
    · subst hne; right; rfl
    · left
      rw [verifyPiece_error codec secret now token hne _ h4]
      rfl

theorem verify_status_iff (codec : JwtCodec) (secret : String) (now : Nat) (token : String)
    (hfree : Free ' ' token) :
    (verify (jwtLib codec) secret now (some ("Bearer " ++ token))).1.status = 200 ↔
      SignatureMatches codec token secret ∧ ∃ c, claimsOf codec token = some c ∧ now < c.exp := by
  rcases verify_bearer_cases codec secret now token hfree with ⟨c, h1, h2, h3, h4⟩ |
    ⟨c, h1, h2, h3, h4⟩ | ⟨h1, h4 | h4⟩
  · rw [h4]; exact ⟨fun _ => ⟨h1, c, h2, h3⟩, fun _ => rfl⟩
  · rw [h4]
    constructor
    · intro h; simp at h
    · rintro ⟨_, c', h2', h3'⟩
      rw [h2] at h2'
      simp only [Option.some.injEq] at h2'
      subst h2'
      omega
  · rw [h4]
    constructor
    · intro h; simp at h
    · rintro ⟨h, _⟩; exact absurd h h1
  · rw [h4]
    constructor
    · intro h; simp at h
    · rintro ⟨h, _⟩; exact absurd h h1

theorem issued_verify_handler (codec : JwtCodec) (hc : codec.Lawful) (c : Claims)
    (secret : String) (now : Nat) :
    (verify (jwtLib codec) secret now (some ("Bearer " ++
        (signingInput codec.header (codec.encode c) ++ "." ++
          codec.mac secret (signingInput codec.header (codec.encode c)))))).1 =
      if now < c.exp then ⟨200, validBody (some (.num c.userId)) (some (.str c.email))⟩
      else ⟨401, invalidBody "Token expired"⟩ := by
  rw [verify_bearer _ _ _ _ (issued_free codec hc c secret)]
  have hv := issued_verify codec hc c secret now
  by_cases hn : now < c.exp
  · have : ¬ now ≥ c.exp := by omega
    rw [if_neg this] at hv
    rw [verifyPiece_ok codec secret now _ (issued_ne _ _ _) c hv, if_pos hn]
  · have : now ≥ c.exp := by omega
    rw [if_pos this] at hv
    rw [verifyPiece_error codec secret now _ (issued_ne _ _ _) _ hv, if_neg hn]
    rfl

/-- A successful login: the request names a stored user with its stored
password, and the token is the one issued for that user at the time of login. -/
theorem login_ok_inv (codec : JwtCodec) (secret : String) (t₀ : Nat) (db : Db)
    (body : Credentials) (tok : String)
    (h : login (jwtLib codec) secret t₀ db body = ⟨200, .obj [("token", .str tok)]⟩) :
    ∃ u ∈ db.rows, body.email = some u.email ∧ body.password = some u.password ∧
      tok = signingInput codec.header (codec.encode ⟨u.id, u.email, t₀, t₀ + oneHour⟩) ++ "." ++
        codec.mac secret
          (signingInput codec.header (codec.encode ⟨u.id, u.email, t₀, t₀ + oneHour⟩)) := by
  unfold login at h
  split_ifs at h with hg
  · simp at h
  · cases hu : AuthService.getUser db (body.email.getD "") with
    | error e => rw [hu] at h; simp at h
    | ok r =>
      cases r with
      | none => rw [hu] at h; simp at h
      | some u =>
        rw [hu] at h
        simp only at h
        split_ifs at h with hpw
        · simp at h
        · simp only [jwtLib, jwtSign_eq, Response.mk.injEq, Json.obj.injEq, List.cons.injEq,
            Prod.mk.injEq, Json.str.injEq, true_and, and_true] at h
          have hm := getUser_some db _ u hu
          simp only [Bool.or_eq_true, Bool.not_eq_true', not_or, Bool.not_eq_false] at hg
          refine ⟨u, hm.1, ?_, ?_, h.symm⟩
          · cases he : body.email with
            | none => rw [he] at hg; simp [truthy] at hg
            | some e =>
              rw [he] at hm
              simp only [Option.getD_some] at hm
              rw [hm.2]
          · cases hp : body.password with
            | none => rw [hp] at hg; simp [truthy] at hg
            | some pw =>
              rw [hp] at hpw
              simp only [Option.getD_some, bne_iff_ne, ne_eq, not_not] at hpw
              rw [hpw]

theorem verifyCatch_status (e : Thrown) : (verifyCatch e).status ≠ 200 := by
  cases e <;> simp [verifyCatch]

theorem verifyPiece_not_matches (codec : JwtCodec) (secret : String) (now : Nat) (t : String)
    (h : ¬ SignatureMatches codec t secret) :
    (verifyPiece (jwtLib codec) secret now (some t)).1.status ≠ 200 := by
  by_cases hne : t = ""
  · subst hne; simp [verifyPiece, truthy]
  · rcases jwtVerify_cases codec t secret now with ⟨c, h1, _⟩ | ⟨c, h1, _⟩ | ⟨_, h4⟩
    · exact absurd h1 h
    · exact absurd h1 h
    · rw [verifyPiece_error codec secret now t hne _ h4]
      exact verifyCatch_status _

/-- Changing one character of the payload segment of an accepted token. -/
theorem tamper_fails (codec : JwtCodec) (secret : String) (now : Nat) (token : String)
    (hfree : Free ' ' token)
    (h p sig : String) (l₁ l₂ : List Char) (c c' : Char)
    (hsplit : jsSplit '.' token = [h, p, sig]) (hp : p.data = l₁ ++ c :: l₂)
    (hvalid : (verify (jwtLib codec) secret now (some ("Bearer " ++ token))).1.status = 200)
    (hdiff : codec.mac secret (signingInput h (String.mk (l₁ ++ c' :: l₂))) ≠
        codec.mac secret (signingInput h p) ∨ c' = ' ' ∨ c' = '.') :
    (verify (jwtLib codec) secret now (some ("Bearer " ++
      (signingInput h (String.mk (l₁ ++ c' :: l₂)) ++ "." ++ sig)))).1.status ≠ 200 := by
  obtain ⟨htok, hdh, hdp, hds⟩ := jsSplit_three '.' token h p sig hsplit
  -- the segments of the accepted token are space-free
  have hsp : Free ' ' h ∧ Free ' ' p ∧ Free ' ' sig := by
    rw [htok] at hfree
    have h1 := free_of_append _ _ _ hfree
    have h2 := free_of_append _ _ _ h1.1
    have h3 := free_of_append _ _ _ h1.2
    have h4 := free_of_append _ _ _ h3.1
    exact ⟨h2.1, h4.1, h3.2⟩
  obtain ⟨hsh, hspp, hss⟩ := hsp
  -- its signature is the one of its first two segments
  have hsig : sig = codec.mac secret (signingInput h p) := by
    obtain ⟨⟨h', p', sig', e1, _, e3⟩, _⟩ := (verify_status_iff codec secret now token hfree).mp hvalid
    rw [hsplit] at e1
    simp only [List.cons.injEq, and_true] at e1
    obtain ⟨rfl, rfl, rfl⟩ := e1
    exact e3
  have hl₁d : '.' ∉ l₁ := by
    intro hm; apply hdp; rw [hp]; simp [hm]
  have hl₂d : '.' ∉ l₂ := by
    intro hm; apply hdp; rw [hp]; simp [hm]
  have hl₁s : ' ' ∉ l₁ := by
    intro hm; apply hspp; rw [hp]; simp [hm]
  have hl₂s : ' ' ∉ l₂ := by
    intro hm; apply hspp; rw [hp]; simp [hm]
  by_cases hspace : c' = ' '
  · subst hspace
    have e : "Bearer " ++ (signingInput h (String.mk (l₁ ++ ' ' :: l₂)) ++ "." ++ sig) =
        "Bearer" ++ " " ++ ((h ++ "." ++ String.mk l₁) ++ " " ++ (String.mk l₂ ++ "." ++ sig)) := by
      apply String.ext
      simp [signingInput, String.data_append]
    have hf1 : Free ' ' (h ++ "." ++ String.mk l₁) :=
      free_append _ _ _ (free_append _ _ _ hsh (by decide)) hl₁s
    rw [e, verify_nonempty _ _ _ _ (append_space_ne _ _), second_of_header _ _ bearer_free,
      head_jsSplit_append _ _ hf1]
    apply verifyPiece_not_matches
    rintro ⟨h', p', sig', e1, _⟩
    have e2 : h ++ "." ++ String.mk l₁ = h ++ String.singleton '.' ++ String.mk l₁ := rfl
    rw [e2, jsSplit_append '.' h _ hdh, jsSplit_free '.' (String.mk l₁) hl₁d] at e1
    simp at e1
  · by_cases hdot : c' = '.'
    · subst hdot
      have hf : Free ' ' (signingInput h (String.mk (l₁ ++ '.' :: l₂)) ++ "." ++ sig) := by
        unfold signingInput
        refine free_append _ _ _ (free_append _ _ _ (free_append _ _ _
          (free_append _ _ _ hsh (by decide)) ?_) (by decide)) hss
        simp only [Free, List.mem_append, List.mem_cons, not_or]
        exact ⟨hl₁s, by decide, hl₂s⟩
      rw [verify_bearer _ _ _ _ hf]
      apply verifyPiece_not_matches
      rintro ⟨h', p', sig', e1, _⟩
      have e2 : signingInput h (String.mk (l₁ ++ '.' :: l₂)) ++ "." ++ sig =
          h ++ String.singleton '.' ++ (String.mk l₁ ++ String.singleton '.' ++
            (String.mk l₂ ++ String.singleton '.' ++ sig)) := by
        apply String.ext
        simp [signingInput, String.data_append, String.singleton]
      rw [e2, jsSplit_append '.' h _ hdh, jsSplit_append '.' (String.mk l₁) _ hl₁d,
        jsSplit_append '.' (String.mk l₂) _ hl₂d, jsSplit_free '.' sig hds] at e1
      simp at e1
    · have hpd : Free '.' (String.mk (l₁ ++ c' :: l₂)) := by
        simp only [Free, List.mem_append, List.mem_cons, not_or]
        exact ⟨hl₁d, fun e => hdot e.symm, hl₂d⟩
      have hps : Free ' ' (String.mk (l₁ ++ c' :: l₂)) := by
        simp only [Free, List.mem_append, List.mem_cons, not_or]
        exact ⟨hl₁s, fun e => hspace e.symm, hl₂s⟩
      have hf : Free ' ' (signingInput h (String.mk (l₁ ++ c' :: l₂)) ++ "." ++ sig) := by
        unfold signingInput
        exact free_append _ _ _ (free_append _ _ _ (free_append _ _ _
          (free_append _ _ _ hsh (by decide)) hps) (by decide)) hss
      rw [verify_bearer _ _ _ _ hf]
      apply verifyPiece_not_matches
      rintro ⟨h', p', sig', e1, _, e3⟩
      rw [jsSplit_segments h _ sig hdh hpd hds] at e1
      simp only [List.cons.injEq, and_true] at e1
      obtain ⟨rfl, rfl, rfl⟩ := e1
      rw [hsig] at e3
      rcases hdiff with hd | hd | hd
      · exact hd e3.symm
      · exact hspace hd
      · exact hdot hd

/-- The token `/login` issues at time 0 for the test user of the bootstrapped
store, under the concrete codec and the secret `k`. -/
theorem login_test_user :
    login (jwtLib plainCodec) "k" 0 (initDb none) ⟨some "test@example.com", some "password"⟩ =
      ⟨200, .obj [("token", .str
        (signingInput plainCodec.header
            (plainCodec.encode ⟨1, "test@example.com", 0, 0 + oneHour⟩) ++ "." ++
          plainCodec.mac "k" (signingInput plainCodec.header
            (plainCodec.encode ⟨1, "test@example.com", 0, 0 + oneHour⟩))))]⟩ := by
  have hg : AuthService.getUser (initDb none) "test@example.com" =
      .ok (some ⟨1, "test@example.com", "password"⟩) := by rfl
  simp [login, truthy, hg, jwtLib, jwtSign_eq]

/-! ## Claims -/

/-- Claim C6. A request to `/me` without an `Authorization` header, or with an
empty one, is answered 401 `{message: "Missing token"}`, and the handler calls
neither the auth service nor the local store: its list of calls is empty,
whatever the auth service and the store would have answered. -/
theorem me_missing_token (upstream : String → UserService.HttpOutcome)
    (store : UserService.LocalStore) :
    UserService.me upstream store none = (⟨401, messageBody "Missing token"⟩, []) ∧
    UserService.me upstream store (some "") = (⟨401, messageBody "Missing token"⟩, []) := by
  constructor <;> rfl

/-- Claim C10. The outcome of `/verify` is decided by the second piece of the
header split at single spaces: with a space-free scheme `s` and a space-free
token `t`, the headers `s t`, `Bearer t` and `Bearer t extra` get the same
answer and make the same call; two non-empty headers with the same second
piece get the same answer; and `Bearer  t`, with two spaces, is answered
"Invalid token format" whatever `t` is, without calling the verifier. -/
theorem verify_second_piece (lib : JwtLib) (secret : String) (now : Nat)
    (s t extra : String) (hs : Free ' ' s) (ht : Free ' ' t) :
    verify lib secret now (some (s ++ " " ++ t)) =
        verify lib secret now (some ("Bearer " ++ t)) ∧
    verify lib secret now (some ("Bearer " ++ t ++ " " ++ extra)) =
        verify lib secret now (some ("Bearer " ++ t)) ∧
    (∀ u : String, verify lib secret now (some ("Bearer  " ++ u)) =
        (⟨401, invalidBody "Invalid token format"⟩, [])) ∧
    (∀ h₁ h₂ : String, h₁ ≠ "" → h₂ ≠ "" → (jsSplit ' ' h₁)[1]? = (jsSplit ' ' h₂)[1]? →
        verify lib secret now (some h₁) = verify lib secret now (some h₂)) := by
  have hb : verify lib secret now (some ("Bearer " ++ t)) =
      verifyPiece lib secret now (some t) := verify_scheme lib secret now "Bearer" t bearer_free ht
  refine ⟨?_, ?_, ?_, ?_⟩
  · rw [hb]; exact verify_scheme lib secret now s t hs ht
  · rw [hb]
    have e : "Bearer " ++ t ++ " " ++ extra = "Bearer" ++ " " ++ (t ++ " " ++ extra) := by
      simp [String.append_assoc]
    rw [e, verify_nonempty _ _ _ _ (append_space_ne _ _), second_of_header _ _ bearer_free,
      head_jsSplit_append t extra ht]
  · intro u
    have e : "Bearer  " ++ u = "Bearer" ++ " " ++ ("" ++ " " ++ u) := by
      simp only [← String.append_assoc]; rfl
    rw [e, verify_nonempty _ _ _ _ (append_space_ne _ _), second_of_header _ _ bearer_free,
      head_jsSplit_append "" u (by decide)]
    rfl
  · intro h₁ h₂ n₁ n₂ e
    rw [verify_nonempty _ _ _ _ n₁, verify_nonempty _ _ _ _ n₂, e]

/-- Witness for claim C10: scheme `Token`, token `abc`, trailing `extra`. -/
theorem verify_second_piece_witness :
    Free ' ' "Token" ∧ Free ' ' "abc" ∧
    verify (jwtLib plainCodec) "k" 0 (some ("Token" ++ " " ++ "abc")) =
      verify (jwtLib plainCodec) "k" 0 (some ("Bearer " ++ "abc")) :=
  ⟨by decide, by decide,
    (verify_second_piece (jwtLib plainCodec) "k" 0 "Token" "abc" "extra"
      (by decide) (by decide)).1⟩

/-- Counterexample for claim C9: the empty header is present and has no second
piece, yet it is answered "Missing token", not "Invalid token format". -/
theorem verify_empty_header_missing :
    (jsSplit ' ' "")[1]? = none ∧
    verify (jwtLib plainCodec) "k" 0 (some "") = (⟨401, invalidBody "Missing token"⟩, []) ∧
    (verify (jwtLib plainCodec) "k" 0 (some "")).1 ≠
      ⟨401, invalidBody "Invalid token format"⟩ := by
  refine ⟨by decide, rfl, ?_⟩
  intro h
  have h' : (⟨401, invalidBody "Missing token"⟩ : Response) =
      ⟨401, invalidBody "Invalid token format"⟩ := h
  simp [invalidBody] at h'

/-- Claim C9, amended. An absent or empty `Authorization` header is answered
401 `{valid: false, message: "Missing token"}`; a non-empty header whose second
space-separated piece is missing or empty is answered 401 `{valid: false,
message: "Invalid token format"}`; in all these cases the token verifier is not
called (the list of calls is empty), whatever library is plugged in. -/
theorem verify_header_errors (lib : JwtLib) (secret : String) (now : Nat) :
    verify lib secret now none = (⟨401, invalidBody "Missing token"⟩, []) ∧
    verify lib secret now (some "") = (⟨401, invalidBody "Missing token"⟩, []) ∧
    (∀ h : String, h ≠ "" → truthy (jsSplit ' ' h)[1]? = false →
      verify lib secret now (some h) = (⟨401, invalidBody "Invalid token format"⟩, [])) ∧
    verify lib secret now (some "Bearer") = (⟨401, invalidBody "Invalid token format"⟩, []) ∧
    verify lib secret now (some "Bearer ") = (⟨401, invalidBody "Invalid token format"⟩, []) := by
  refine ⟨rfl, rfl, ?_, ?_, ?_⟩
  · intro h hne ht
    rw [verify_nonempty _ _ _ _ hne]
    simp [verifyPiece, ht]
  · rw [verify_nonempty _ _ _ _ (by decide)]
    have : (jsSplit ' ' "Bearer")[1]? = none := by decide
    rw [this]; rfl
  · rw [verify_nonempty _ _ _ _ (by decide)]
    have : (jsSplit ' ' "Bearer ")[1]? = some "" := by decide
    rw [this]; rfl

/-- Witness for claim C9: the header `Basic`, which has one piece only. -/
theorem verify_header_errors_witness :
    "Basic" ≠ "" ∧ truthy (jsSplit ' ' "Basic")[1]? = false ∧
    verify (jwtLib plainCodec) "k" 0 (some "Basic") =
      (⟨401, invalidBody "Invalid token format"⟩, []) :=
  ⟨by decide, by decide,
    (verify_header_errors (jwtLib plainCodec) "k" 0).2.2.1 "Basic" (by decide) (by decide)⟩

/-- Counterexample for claim C3. On the bootstrapped store, a login with the
non-empty email `nouser` followed by a NUL character, for which there is no
user record, is answered 500 "Internal server error", because the store rejects
the query, while `test@example.com` with `wrongpass` is answered 401 "Invalid
credentials": the two answers differ. And on a store that cannot be reached, a
login with `nouser@example.com` is answered 500 as well. -/
theorem login_store_rejection_differs :
    "nouser" ++ String.singleton nul ≠ "" ∧
    (∀ r ∈ (initDb none).rows, r.email ≠ "nouser" ++ String.singleton nul) ∧
    login (jwtLib plainCodec) "k" 0 (initDb none)
        ⟨some ("nouser" ++ String.singleton nul), some "anything"⟩ =
      ⟨500, messageBody "Internal server error"⟩ ∧
    login (jwtLib plainCodec) "k" 0 (initDb none) ⟨some "test@example.com", some "wrongpass"⟩ =
      ⟨401, messageBody "Invalid credentials"⟩ ∧
    login (jwtLib plainCodec) "k" 0 (initDb none)
        ⟨some ("nouser" ++ String.singleton nul), some "anything"⟩ ≠
      login (jwtLib plainCodec) "k" 0 (initDb none)
        ⟨some "test@example.com", some "wrongpass"⟩ ∧
    login (jwtLib plainCodec) "k" 0 ⟨(initDb none).rows, (initDb none).nextId, refusesAll⟩
        ⟨some "nouser@example.com", some "anything"⟩ =
      ⟨500, messageBody "Internal server error"⟩ := by
  have h1 : login (jwtLib plainCodec) "k" 0 (initDb none)
      ⟨some ("nouser" ++ String.singleton nul), some "anything"⟩ =
      ⟨500, messageBody "Internal server error"⟩ := by rfl
  have h2 : login (jwtLib plainCodec) "k" 0 (initDb none)
      ⟨some "test@example.com", some "wrongpass"⟩ =
      ⟨401, messageBody "Invalid credentials"⟩ := by rfl
  refine ⟨by decide, by decide, h1, h2, ?_, by rfl⟩
  rw [h1, h2]
  simp

/-- Claim C3, amended. For every store and every two login requests with
non-empty email and password whose lookup by email the store does not reject,
the first naming an email without a user record and the second an email that
has a record but with a password no record of that email stores, `/login`
gives both the same answer: 401 `{message: "Invalid credentials"}`. -/
theorem login_no_existence_leak (lib : JwtLib) (secret : String) (now : Nat) (db : Db)
    (e₁ p₁ e₂ p₂ : String) (he₁ : e₁ ≠ "") (hp₁ : p₁ ≠ "") (he₂ : e₂ ≠ "") (hp₂ : p₂ ≠ "")
    (hr₁ : db.refuses [e₁] = false) (hr₂ : db.refuses [e₂] = false)
    (hnone : ∀ r ∈ db.rows, r.email ≠ e₁)
    (hsome : ∃ r ∈ db.rows, r.email = e₂)
    (hpw : ∀ r ∈ db.rows, r.email = e₂ → r.password ≠ p₂) :
    login lib secret now db ⟨some e₁, some p₁⟩ = ⟨401, messageBody "Invalid credentials"⟩ ∧
    login lib secret now db ⟨some e₂, some p₂⟩ = ⟨401, messageBody "Invalid credentials"⟩ ∧
    login lib secret now db ⟨some e₁, some p₁⟩ = login lib secret now db ⟨some e₂, some p₂⟩ := by
  have h₁ : login lib secret now db ⟨some e₁, some p₁⟩ =
      ⟨401, messageBody "Invalid credentials"⟩ := by
    simp [login, truthy, he₁, hp₁, getUser_eq_none db e₁ hr₁ hnone]
  have h₂ : login lib secret now db ⟨some e₂, some p₂⟩ =
      ⟨401, messageBody "Invalid credentials"⟩ := by
    obtain ⟨u, hu⟩ := getUser_exists db e₂ hr₂ hsome
    have hm := getUser_some db e₂ u hu
    have hne : u.password ≠ p₂ := hpw u hm.1 hm.2
    simp [login, truthy, he₂, hp₂, hu, hne]
  exact ⟨h₁, h₂, h₁.trans h₂.symm⟩

/-- Witness for claim C3: on the bootstrapped store, `nouser@example.com` with
`anything` against `test@example.com` with `wrongpass`. -/
theorem login_no_existence_leak_witness :
    login (jwtLib plainCodec) "k" 0 (initDb none) ⟨some "nouser@example.com", some "anything"⟩ =
        ⟨401, messageBody "Invalid credentials"⟩ ∧
    login (jwtLib plainCodec) "k" 0 (initDb none) ⟨some "test@example.com", some "wrongpass"⟩ =
        ⟨401, messageBody "Invalid credentials"⟩ :=
  have h := login_no_existence_leak (jwtLib plainCodec) "k" 0 (initDb none)
    "nouser@example.com" "anything" "test@example.com" "wrongpass"
    (by decide) (by decide) (by decide) (by decide) (by decide) (by decide)
    (by decide) (by decide) (by decide)
  ⟨h.1, h.2.1⟩

/-- Counterexample for claim C5: on the bootstrapped store, a registration of
`a@b.c` passes its existence check, another registration of the same email
runs before the `INSERT`, the `INSERT` fails with the uniqueness error, and the
answer is 500 "Internal server error", not 409 "User already exists". -/
theorem register_race_gives_500 :
    AuthService.getUser (initDb none) "a@b.c" = .ok none ∧
    (insertUser ((register (initDb none) ⟨some "a@b.c", some "q"⟩).2) "a@b.c" "p").1 =
      .error (.storeError true) ∧
    (registerWith (fun db => (register db ⟨some "a@b.c", some "q"⟩).2) (initDb none)
      ⟨some "a@b.c", some "p"⟩).1 = ⟨500, messageBody "Internal server error"⟩ ∧
    (registerWith (fun db => (register db ⟨some "a@b.c", some "q"⟩).2) (initDb none)
      ⟨some "a@b.c", some "p"⟩).1 ≠ ⟨409, messageBody "User already exists"⟩ := by
  refine ⟨by rfl, by rfl, by rfl, ?_⟩
  intro h
  have h' : (⟨500, messageBody "Internal server error"⟩ : Response) =
      ⟨409, messageBody "User already exists"⟩ := h
  simp at h'

/-- Claim C5, amended. When `/register` passes its existence check and the
`INSERT` then fails, with the uniqueness error or any other, the answer is 500
`{message: "Internal server error"}`; 409 "User already exists" is answered
only when the existence check itself finds the user. -/
theorem register_insert_failure (between : Db → Db) (db : Db) (email password : String)
    (he : email ≠ "") (hp : password ≠ "") :
    (∀ e, AuthService.getUser db email = .ok none →
      (insertUser (between db) email password).1 = .error e →
      (registerWith between db ⟨some email, some password⟩).1 =
        ⟨500, messageBody "Internal server error"⟩) ∧
    ((registerWith between db ⟨some email, some password⟩).1 =
        ⟨409, messageBody "User already exists"⟩ ↔
      ∃ u, AuthService.getUser db email = .ok (some u)) := by
  have hguard : (!truthy (some email) || !truthy (some password)) = false := by
    simp [truthy, he, hp]
  constructor
  · intro e hnone hins
    cases hi : insertUser (between db) email password with
    | mk r db' =>
      rw [hi] at hins
      simp only at hins
      subst hins
      simp [registerWith, hguard, hnone, hi]
  · cases hg : AuthService.getUser db email with
    | error e => simp [registerWith, hguard, hg, messageBody]
    | ok r =>
      cases r with
      | some u => simp [registerWith, hguard, hg]
      | none =>
        cases hi : insertUser (between db) email password with
        | mk r db' =>
          cases r with
          | ok row => simp [registerWith, hguard, hg, hi]
          | error e => simp [registerWith, hguard, hg, hi, messageBody]

/-- Witness for claim C5: the racing registration of `a@b.c`. -/
theorem register_insert_failure_witness :
    (registerWith (fun db => (register db ⟨some "a@b.c", some "q"⟩).2) (initDb none)
      ⟨some "a@b.c", some "p"⟩).1 = ⟨500, messageBody "Internal server error"⟩ :=
  (register_insert_failure (fun db => (register db ⟨some "a@b.c", some "q"⟩).2) (initDb none)
    "a@b.c" "p" (by decide) (by decide)).1 (.storeError true) (by rfl) (by rfl)

/-! ## The handler of the user service -/

open UserService

theorem me_nonempty (upstream : String → HttpOutcome) (store : LocalStore) (h : String)
    (hne : h ≠ "") :
    me upstream store (some h) =
      match axiosGet (upstream h) with
      | .error e => (meCatch e, [Effect.httpGetVerify h])
      | .ok (_, data) =>
        match readUserId data with
        | .error e => (meCatch e, [Effect.httpGetVerify h])
        | .ok userId =>
          (match UserService.getUser store userId with
            | .error e => meCatch e
            | .ok none => meCatch .typeError
            | .ok (some user) =>
              ⟨200, .obj [("id", .num user.id), ("email", .str user.email)]⟩,
           [Effect.httpGetVerify h, Effect.storeQuery userId]) := by
  simp [me, truthy, hne]

theorem meCatch_cases (e : Thrown) :
    ((∃ data, e = .axiosError (some (401, data))) ∧
      meCatch e = ⟨401, messageBody "Invalid token"⟩) ∨
    ((¬ ∃ data, e = .axiosError (some (401, data))) ∧
      meCatch e = ⟨500, messageBody "Internal server error"⟩) := by
  cases e with
  | axiosError r =>
    cases r with
    | none => right; simp [meCatch]
    | some sd =>
      obtain ⟨st, d⟩ := sd
      by_cases h : st = 401
      · subst h; left; exact ⟨⟨d, rfl⟩, rfl⟩
      · right
        refine ⟨?_, ?_⟩
        · rintro ⟨data, hd⟩
          simp only [Thrown.axiosError.injEq, Option.some.injEq, Prod.mk.injEq] at hd
          exact h hd.1
        · unfold meCatch
          split
          · rename_i heq
            simp only [Thrown.axiosError.injEq, Option.some.injEq, Prod.mk.injEq] at heq
            exact absurd heq.1 h
          · rfl
  | jsonWebTokenError => right; simp [meCatch]
  | tokenExpiredError => right; simp [meCatch]
  | otherJwtError => right; simp [meCatch]
  | typeError => right; simp [meCatch]
  | storeError u => right; simp [meCatch]

theorem axiosGet_error_401 (o : HttpOutcome) (e : Thrown) (h : axiosGet o = .error e) :
    (∃ data, e = .axiosError (some (401, data))) ↔ ∃ data, o = .reply 401 data := by
  cases o with
  | noReply =>
    simp only [axiosGet, Except.error.injEq] at h
    subst h
    simp
  | reply st d =>
    simp only [axiosGet] at h
    split_ifs at h with hs
    simp only [Except.error.injEq] at h
    subst h
    constructor
    · rintro ⟨data, hd⟩
      simp only [Thrown.axiosError.injEq, Option.some.injEq, Prod.mk.injEq] at hd
      exact ⟨data, by rw [hd.1, hd.2]⟩
    · rintro ⟨data, hd⟩
      simp only [HttpOutcome.reply.injEq] at hd
      exact ⟨data, by rw [hd.1, hd.2]⟩

theorem axiosGet_ok_not_401 (o : HttpOutcome) (r : Nat × Json) (h : axiosGet o = .ok r) :
    ¬ ∃ data, o = .reply 401 data := by
  rintro ⟨data, hd⟩
  subst hd
  simp [axiosGet] at h

theorem getProp_error (v : Option Json) (k : String) (e : Thrown)
    (h : getProp v k = .error e) : e = .typeError := by
  unfold getProp at h
  split at h <;> simp at h <;> exact h.symm

theorem readUserId_error (data : Json) (e : Thrown) (h : readUserId data = .error e) :
    e = .typeError := by
  unfold readUserId at h
  cases hu : getProp (some data) "user" with
  | error e' =>
    rw [hu] at h
    have := getProp_error _ _ _ hu
    simp only [Except.bind, Except.error.injEq] at h
    rw [← h]; exact this
  | ok u =>
    rw [hu] at h
    exact getProp_error _ _ _ h

theorem getUser_error (store : LocalStore) (userId : Option Json) (e : Thrown)
    (h : UserService.getUser store userId = .error e) : e = .storeError false := by
  unfold UserService.getUser at h
  split at h
  · simpa using h.symm
  · split at h
    · simp at h
    · simp at h
    · simp at h
    · split at h <;> simp at h
      exact h.symm
    · simpa using h.symm

/-- The three possible outcomes of `/me` on a non-empty header. -/
theorem me_outcome (upstream : String → HttpOutcome) (store : LocalStore) (h : String)
    (hne : h ≠ "") :
    (me upstream store (some h)).1.status = 200 ∨
    ((∃ data, upstream h = .reply 401 data) ∧
      (me upstream store (some h)).1 = ⟨401, messageBody "Invalid token"⟩) ∨
    ((¬ ∃ data, upstream h = .reply 401 data) ∧
      (me upstream store (some h)).1 = ⟨500, messageBody "Internal server error"⟩) := by
  rw [me_nonempty upstream store h hne]
  cases ha : axiosGet (upstream h) with
  | error e =>
    right
    rcases meCatch_cases e with ⟨h1, h2⟩ | ⟨h1, h2⟩
    · exact Or.inl ⟨(axiosGet_error_401 _ e ha).mp h1, h2⟩
    · exact Or.inr ⟨fun hx => h1 ((axiosGet_error_401 _ e ha).mpr hx), h2⟩
  | ok r =>
    obtain ⟨st, data⟩ := r
    have hn := axiosGet_ok_not_401 _ _ ha
    cases hu : readUserId data with
    | error e =>
      right; right
      have := readUserId_error _ _ hu
      subst this
      refine ⟨hn, ?_⟩
      simp only [hu]; rfl
    | ok userId =>
      cases hg : UserService.getUser store userId with
      | error e =>
        right; right
        have := getUser_error _ _ _ hg
        subst this
        refine ⟨hn, ?_⟩
        simp only [hu, hg]; rfl
      | ok u =>
        cases u with
        | none =>
          right; right
          refine ⟨hn, ?_⟩
          simp only [hu, hg]; rfl
        | some user =>
          left
          simp only [hu, hg]

theorem me_axios_error (upstream : String → HttpOutcome) (store : LocalStore) (h : String)
    (hne : h ≠ "") (e : Thrown) (ha : axiosGet (upstream h) = .error e) :
    me upstream store (some h) = (meCatch e, [Effect.httpGetVerify h]) := by
  rw [me_nonempty upstream store h hne, ha]

theorem me_read_error (upstream : String → HttpOutcome) (store : LocalStore) (h : String)
    (hne : h ≠ "") (st : Nat) (data : Json) (e : Thrown)
    (ha : axiosGet (upstream h) = .ok (st, data)) (hr : readUserId data = .error e) :
    me upstream store (some h) = (meCatch e, [Effect.httpGetVerify h]) := by
  rw [me_nonempty upstream store h hne, ha]
  simp only [hr]

theorem me_read_ok (upstream : String → HttpOutcome) (store : LocalStore) (h : String)
    (hne : h ≠ "") (st : Nat) (data : Json) (userId : Option Json)
    (ha : axiosGet (upstream h) = .ok (st, data)) (hr : readUserId data = .ok userId) :
    me upstream store (some h) =
      (match UserService.getUser store userId with
        | .error e => meCatch e
        | .ok none => meCatch .typeError
        | .ok (some user) => ⟨200, .obj [("id", .num user.id), ("email", .str user.email)]⟩,
       [Effect.httpGetVerify h, Effect.storeQuery userId]) := by
  rw [me_nonempty upstream store h hne, ha]
  simp only [hr]

theorem me_calls_once (upstream : String → HttpOutcome) (store : LocalStore) (h : String)
    (hne : h ≠ "") : upstreamCalls (me upstream store (some h)).2 = 1 := by
  cases ha : axiosGet (upstream h) with
  | error e => rw [me_axios_error _ _ _ hne e ha]; rfl
  | ok r =>
    obtain ⟨st, data⟩ := r
    cases hr : readUserId data with
    | error e => rw [me_read_error _ _ _ hne st data e ha hr]; rfl
    | ok userId => rw [me_read_ok _ _ _ hne st data userId ha hr]; rfl

theorem axiosGet_2xx (st : Nat) (data : Json) (h : 200 ≤ st ∧ st < 300) :
    axiosGet (.reply st data) = .ok (st, data) := by
  simp [axiosGet, h]

theorem selectById_none (rows : List UserRow) (X : Nat) (h : ∀ r ∈ rows, r.id ≠ X) :
    (selectById rows X).head? = none := by
  have : selectById rows X = [] := by
    simp only [selectById, List.filter_eq_nil_iff, decide_eq_true_eq]
    exact h
  simp [this]

/-- Counterexample for claim C7: a request whose `Authorization` header is
present but empty, with an auth service that would not reply, is answered 401
"Missing token", which is neither 401 "Invalid token" nor 500, and the auth
service is called zero times. -/
theorem me_empty_header_not_forwarded :
    (me (fun _ => .noReply) (.table [] String.toNat?) (some "")).1 = ⟨401, messageBody "Missing token"⟩ ∧
    (me (fun _ => .noReply) (.table [] String.toNat?) (some "")).1 ≠
      ⟨500, messageBody "Internal server error"⟩ ∧
    (me (fun _ => .noReply) (.table [] String.toNat?) (some "")).1 ≠ ⟨401, messageBody "Invalid token"⟩ ∧
    upstreamCalls (me (fun _ => .noReply) (.table [] String.toNat?) (some "")).2 = 0 := by
  refine ⟨rfl, ?_, ?_, rfl⟩
  · intro h
    have h' : (⟨401, messageBody "Missing token"⟩ : Response) =
        ⟨500, messageBody "Internal server error"⟩ := h
    simp at h'
  · intro h
    have h' : (⟨401, messageBody "Missing token"⟩ : Response) =
        ⟨401, messageBody "Invalid token"⟩ := h
    simp [messageBody] at h'

/-- Claim C7, amended. For every `/me` request with a non-empty
`Authorization` header the auth service is called exactly once; when the
request does not end in 200, the answer is 401 `{message: "Invalid token"}`
exactly when the call to `/verify` failed with a reply of status 401, and 500
`{message: "Internal server error"}` otherwise. In particular the answer is 500
when there is no reply, when the reply has an error status other than 401, when
a 2xx reply lacks `user.userId`, when the local store fails, and when the
verified subject has no local record. -/
theorem me_failure_policy (upstream : String → HttpOutcome) (store : LocalStore) (h : String)
    (hne : h ≠ "") :
    upstreamCalls (me upstream store (some h)).2 = 1 ∧
    ((me upstream store (some h)).1.status ≠ 200 →
      ((me upstream store (some h)).1 = ⟨401, messageBody "Invalid token"⟩ ↔
        ∃ data, upstream h = .reply 401 data) ∧
      ((¬ ∃ data, upstream h = .reply 401 data) →
        (me upstream store (some h)).1 = ⟨500, messageBody "Internal server error"⟩)) ∧
    (upstream h = .noReply →
      (me upstream store (some h)).1 = ⟨500, messageBody "Internal server error"⟩) ∧
    (∀ st data, upstream h = .reply st data → ¬ (200 ≤ st ∧ st < 300) → st ≠ 401 →
      (me upstream store (some h)).1 = ⟨500, messageBody "Internal server error"⟩) ∧
    (∀ st data, upstream h = .reply st data → (200 ≤ st ∧ st < 300) →
      (∀ v, readUserId data ≠ .ok (some v)) →
      (me upstream store (some h)).1 = ⟨500, messageBody "Internal server error"⟩) ∧
    (∀ st data, upstream h = .reply st data → (200 ≤ st ∧ st < 300) → store = .failing →
      (me upstream store (some h)).1 = ⟨500, messageBody "Internal server error"⟩) ∧
    (∀ st data X rows readId, upstream h = .reply st data → (200 ≤ st ∧ st < 300) →
      readUserId data = .ok (some (.num X)) → store = .table rows readId →
      (∀ r ∈ rows, r.id ≠ X) →
      (me upstream store (some h)).1 = ⟨500, messageBody "Internal server error"⟩) := by
  have ho := me_outcome upstream store h hne
  have hfail : (me upstream store (some h)).1.status ≠ 200 →
      (¬ ∃ data, upstream h = .reply 401 data) →
      (me upstream store (some h)).1 = ⟨500, messageBody "Internal server error"⟩ := by
    intro hs hn
    rcases ho with h1 | ⟨h1, _⟩ | ⟨_, h2⟩
    · exact absurd h1 hs
    · exact absurd h1 hn
    · exact h2
  refine ⟨me_calls_once upstream store h hne, ?_, ?_, ?_, ?_, ?_, ?_⟩
  · intro hs
    refine ⟨?_, hfail hs⟩
    rcases ho with h1 | ⟨h1, h2⟩ | ⟨h1, h2⟩
    · exact absurd h1 hs
    · exact ⟨fun _ => h1, fun _ => h2⟩
    · constructor
      · intro h3
        rw [h2] at h3
        simp at h3
      · intro h3; exact absurd h3 h1
  · intro hu
    rw [me_axios_error _ _ _ hne (.axiosError none) (by rw [hu]; rfl)]; rfl
  · intro st data hu h2 h4
    rw [me_axios_error _ _ _ hne (.axiosError (some (st, data)))
      (by rw [hu]; simp [axiosGet, h2])]
    unfold meCatch
    split
    · rename_i heq
      simp only [Thrown.axiosError.injEq, Option.some.injEq, Prod.mk.injEq] at heq
      exact absurd heq.1 h4
    · rfl
  · intro st data hu h2 hl
    have ha : axiosGet (upstream h) = .ok (st, data) := by rw [hu]; exact axiosGet_2xx st data h2
    cases hr : readUserId data with
    | error e =>
      have := readUserId_error _ _ hr
      subst this
      rw [me_read_error _ _ _ hne st data _ ha hr]; rfl
    | ok userId =>
      cases userId with
      | some v => exact absurd hr (hl v)
      | none =>
        rw [me_read_ok _ _ _ hne st data _ ha hr]
        cases store with
        | failing => rfl
        | table rows readId => rfl
  · intro st data hu h2 hst
    subst hst
    have ha : axiosGet (upstream h) = .ok (st, data) := by rw [hu]; exact axiosGet_2xx st data h2
    cases hr : readUserId data with
    | error e =>
      have := readUserId_error _ _ hr
      subst this
      rw [me_read_error _ _ _ hne st data _ ha hr]; rfl
    | ok userId => rw [me_read_ok _ _ _ hne st data _ ha hr]; rfl
  · intro st data X rows readId hu h2 hr hst hno
    subst hst
    have ha : axiosGet (upstream h) = .ok (st, data) := by rw [hu]; exact axiosGet_2xx st data h2
    rw [me_read_ok _ _ _ hne st data _ ha hr]
    simp only [UserService.getUser, selectById_none rows X hno]
    rfl

/-- Witness for claim C7: header `Bearer x`, an auth service that answers 401. -/
theorem me_failure_policy_witness :
    "Bearer x" ≠ "" ∧
    upstreamCalls (me (fun _ => .reply 401 .null) (.table [] String.toNat?)
      (some "Bearer x")).2 = 1 :=
  ⟨by decide, (me_failure_policy (fun _ => .reply 401 .null) (.table [] String.toNat?) "Bearer x"
    (by decide)).1⟩

/-- Claim C8. For every `/me` request with a (non-empty) `Authorization`
header `h` that the auth service verifies, that is, answers with a 2xx reply of
the body `{valid: true, user: {userId: X, email}}`, when the local store holds a
record with identifier `X`: the header sent to the auth service is `h` itself,
the store is asked for `X`, and the answer is 200 with the body `{id, email}` of
two fields, the identifier `X` and the email of a local record with that
identifier, whatever email claim the auth service returned and however the
store reads texts. -/
theorem me_projection (upstream : String → HttpOutcome) (rows : List UserRow)
    (readId : String → Option Nat) (h : String) (hne : h ≠ "") (st : Nat) (X : Nat)
    (claimed : String)
    (hu : upstream h = .reply st (.obj [("valid", .bool true),
      ("user", .obj [("userId", .num X), ("email", .str claimed)])]))
    (h2 : 200 ≤ st ∧ st < 300)
    (hrow : ∃ r ∈ rows, r.id = X) :
    ∃ r ∈ rows, r.id = X ∧
      me upstream (.table rows readId) (some h) =
        (⟨200, .obj [("id", .num X), ("email", .str r.email)]⟩,
          [Effect.httpGetVerify h, Effect.storeQuery (some (.num X))]) := by
  have ha : axiosGet (upstream h) = .ok (st, .obj [("valid", .bool true),
      ("user", .obj [("userId", .num X), ("email", .str claimed)])]) := by
    rw [hu]; exact axiosGet_2xx st _ h2
  have hx : readUserId (.obj [("valid", .bool true),
      ("user", .obj [("userId", .num X), ("email", .str claimed)])]) =
      .ok (some (.num X)) := by
    simp [readUserId, getProp, lookupField, Except.bind]
  obtain ⟨r₀, hr₀, hid⟩ := hrow
  obtain ⟨r, hr⟩ := filter_head_some (fun r : UserRow => decide (r.id = X)) rows r₀ hr₀
    (by simpa using hid)
  have hm := filter_head_mem _ _ _ hr
  have hrid : r.id = X := by simpa using hm.2
  refine ⟨r, hm.1, hrid, ?_⟩
  rw [me_read_ok _ _ _ hne st _ _ ha hx]
  have hg : UserService.getUser (.table rows readId) (some (.num X)) = .ok (some r) := by
    simp only [UserService.getUser, selectById]
    rw [hr]
  simp only [hg, hrid]

/-- Witness for claim C8: the auth service verifies subject 7 with another
email claim; the local store holds subjects 1 and 7. -/
theorem me_projection_witness :
    ∃ r ∈ [(⟨1, "one@example.com", "pw1"⟩ : UserRow), ⟨7, "seven@example.com", "pw7"⟩],
      r.id = 7 ∧
      me (fun _ => .reply 200 (.obj [("valid", .bool true),
          ("user", .obj [("userId", .num 7), ("email", .str "claimed@example.com")])]))
        (.table [⟨1, "one@example.com", "pw1"⟩, ⟨7, "seven@example.com", "pw7"⟩] String.toNat?)
        (some "Bearer t") =
        (⟨200, .obj [("id", .num 7), ("email", .str r.email)]⟩,
          [Effect.httpGetVerify "Bearer t", Effect.storeQuery (some (.num 7))]) :=
  me_projection _ [⟨1, "one@example.com", "pw1"⟩, ⟨7, "seven@example.com", "pw7"⟩]
    String.toNat? "Bearer t" (by decide) 200 7 "claimed@example.com" rfl
    (by decide) ⟨⟨7, "seven@example.com", "pw7"⟩, by simp, rfl⟩

/-- Counterexample for claim C4. On the bootstrapped store, registering the
non-empty, unregistered email `a` followed by a NUL character is answered 500
"Internal server error" and stores nothing, because the store rejects the
query; so is registering `alice@example.com` with a password that holds a NUL
character; and so is any registration on a store that cannot be reached. -/
theorem register_store_rejection :
    "a" ++ String.singleton nul ≠ "" ∧
    (∀ r ∈ (initDb none).rows, r.email ≠ "a" ++ String.singleton nul) ∧
    register (initDb none) ⟨some ("a" ++ String.singleton nul), some "secret"⟩ =
      (⟨500, messageBody "Internal server error"⟩, initDb none) ∧
    register (initDb none) ⟨some "alice@example.com", some ("s" ++ String.singleton nul)⟩ =
      (⟨500, messageBody "Internal server error"⟩, initDb none) ∧
    (register ⟨(initDb none).rows, (initDb none).nextId, refusesAll⟩
      ⟨some "alice@example.com", some "secret"⟩).1 =
      ⟨500, messageBody "Internal server error"⟩ ∧
    (register (initDb none) ⟨some ("a" ++ String.singleton nul), some "secret"⟩).1 ≠
      ⟨201, .obj [("message", .str "User created successfully"),
        ("user", .obj [("id", .num 2), ("email", .str ("a" ++ String.singleton nul))])]⟩ := by
  refine ⟨by decide, by decide, by rfl, by rfl, by rfl, ?_⟩
  intro h
  have h' : (⟨500, messageBody "Internal server error"⟩ : Response) =
      ⟨201, .obj [("message", .str "User created successfully"),
        ("user", .obj [("id", .num 2), ("email", .str ("a" ++ String.singleton nul))])]⟩ := h
  simp at h'

/-- Claim C4, amended. For every store that satisfies the table invariant and
every non-empty email and password whose email is not in the store and whose
lookup and `INSERT` the store does not reject, `/register` answers 201 with the
created `{id, email}`, and a `/login` that follows with the same email and
password answers 200 with a token whose embedded email is the registered email
and whose embedded `userId` is the identifier `/register` returned (the token
expires one hour after the login). -/
theorem register_then_login (codec : JwtCodec) (hc : codec.Lawful) (secret : String) (db : Db)
    (hwf : db.WF) (email password : String) (he : email ≠ "") (hp : password ≠ "")
    (hr1 : db.refuses [email] = false) (hr2 : db.refuses [email, password] = false)
    (hnew : ∀ r ∈ db.rows, r.email ≠ email) :
    (register db ⟨some email, some password⟩).1 =
      ⟨201, .obj [("message", .str "User created successfully"),
        ("user", .obj [("id", .num db.nextId), ("email", .str email)])]⟩ ∧
    ∀ now, ∃ token,
      login (jwtLib codec) secret now (register db ⟨some email, some password⟩).2
        ⟨some email, some password⟩ = ⟨200, .obj [("token", .str token)]⟩ ∧
      claimsOf codec token = some ⟨db.nextId, email, now, now + oneHour⟩ := by
  have hguard : (!truthy (some email) || !truthy (some password)) = false := by
    simp [truthy, he, hp]
  have hreg : register db ⟨some email, some password⟩ =
      (⟨201, .obj [("message", .str "User created successfully"),
        ("user", .obj [("id", .num db.nextId), ("email", .str email)])]⟩,
       ⟨db.rows ++ [⟨db.nextId, email, password⟩], db.nextId + 1, db.refuses⟩) := by
    simp [register, registerWith, hguard, getUser_eq_none db email hr1 hnew,
      insertUser_fresh db hwf email password hr2 hnew]
  rw [hreg]
  refine ⟨rfl, ?_⟩
  intro now
  refine ⟨_, ?_, issued_claims codec hc ⟨db.nextId, email, now, now + oneHour⟩ secret⟩
  have hg := getUser_after_insert db ⟨db.nextId, email, password⟩ (db.nextId + 1) hr1 hnew
  simp only at hg
  simp [login, hguard, hg, jwtLib, jwtSign_eq]

/-- Witness for claim C4: registering `alice@example.com` on the bootstrapped
store. -/
theorem register_then_login_witness :
    (register (initDb none) ⟨some "alice@example.com", some "secret"⟩).1 =
        ⟨201, .obj [("message", .str "User created successfully"),
          ("user", .obj [("id", .num 2), ("email", .str "alice@example.com")])]⟩ ∧
    ∃ token,
      login (jwtLib plainCodec) "k" 5
        (register (initDb none) ⟨some "alice@example.com", some "secret"⟩).2
        ⟨some "alice@example.com", some "secret"⟩ = ⟨200, .obj [("token", .str token)]⟩ ∧
      claimsOf plainCodec token = some ⟨2, "alice@example.com", 5, 5 + oneHour⟩ :=
  have h := register_then_login plainCodec plainCodec_lawful "k" (initDb none) initDb_wf
    "alice@example.com" "secret" (by decide) (by decide) (by decide) (by decide) (by decide)
  ⟨h.1, h.2 5⟩

/-- Counterexample for claim C1. Under the concrete codec and the secret `k`,
at time 0: the token string `HS256.bbab.kHS256zdbbab x`, which contains a space,
has a third segment that is not the signature of its first two, yet `/verify`
given `Bearer <token>` answers 200, because only the part before the space is
verified. The token `/login` issues at time 0 is answered "Token expired" at
time 3600, exactly one hour later. And under a codec that meets every
guarantee asked of the library but in which two signing inputs have the same
signature, the accepted token `HS256.bbabx.k` is still accepted, with another
email, after its last payload character is changed. -/
theorem verify_accepts_unsigned_string :
    (verify (jwtLib plainCodec) "k" 0 (some ("Bearer " ++ "HS256.bbab.kHS256zdbbab x"))).1 =
      ⟨200, validBody (some (.num 0)) (some (.str ""))⟩ ∧
    ¬ SignatureMatches plainCodec "HS256.bbab.kHS256zdbbab x" "k" ∧
    (verify (jwtLib plainCodec) "k" (0 + oneHour) (some ("Bearer " ++
      (signingInput plainCodec.header
          (plainCodec.encode ⟨1, "test@example.com", 0, 0 + oneHour⟩) ++ "." ++
        plainCodec.mac "k" (signingInput plainCodec.header
          (plainCodec.encode ⟨1, "test@example.com", 0, 0 + oneHour⟩)))))).1 =
      ⟨401, invalidBody "Token expired"⟩ ∧
    collidingCodec.Lawful ∧
    (verify (jwtLib collidingCodec) "k" 0 (some ("Bearer " ++ "HS256.bbabx.k"))).1 =
      ⟨200, validBody (some (.num 0)) (some (.str "x"))⟩ ∧
    (verify (jwtLib collidingCodec) "k" 0 (some ("Bearer " ++ "HS256.bbaby.k"))).1 =
      ⟨200, validBody (some (.num 0)) (some (.str "y"))⟩ := by
  refine ⟨by rfl, ?_, ?_, collidingCodec_lawful, by rfl, by rfl⟩
  · rintro ⟨h, p, sig, e1, _, e3⟩
    have hs : jsSplit '.' "HS256.bbab.kHS256zdbbab x" = ["HS256", "bbab", "kHS256zdbbab x"] := by
      decide
    rw [hs] at e1
    simp only [List.cons.injEq, and_true] at e1
    obtain ⟨rfl, rfl, rfl⟩ := e1
    revert e3
    decide
  · rw [issued_verify_handler plainCodec plainCodec_lawful
      ⟨1, "test@example.com", 0, 0 + oneHour⟩ "k" (0 + oneHour)]
    simp

/-- Claim C1, amended. For every token string without a space, every secret
and every current time, `/verify` given `Bearer <token>` answers 200 if and only
if the signature of the token matches the secret and the current time is before
its expiry; the body is then `{valid: true, user: {userId, email}}` with the
identifier and email the token carries. For a token issued by `/login` at time
`t₀` these are the identifier and email of the stored user, and the answer is 200
exactly when fewer than 3600 seconds have passed since `t₀`. Changing one
character of the payload segment of an accepted token makes `/verify` fail,
unless the changed signing input has the same signature under the secret as the
original one; a change to a space or to a dot always fails. -/
theorem verify_valid_iff (codec : JwtCodec) (secret : String) (now : Nat) (token : String)
    (hfree : Free ' ' token) :
    ((verify (jwtLib codec) secret now (some ("Bearer " ++ token))).1.status = 200 ↔
      SignatureMatches codec token secret ∧
        ∃ c, claimsOf codec token = some c ∧ now < c.exp) ∧
    (∀ c, claimsOf codec token = some c →
      (verify (jwtLib codec) secret now (some ("Bearer " ++ token))).1.status = 200 →
      (verify (jwtLib codec) secret now (some ("Bearer " ++ token))).1 =
        ⟨200, validBody (some (.num c.userId)) (some (.str c.email))⟩) ∧
    (codec.Lawful → ∀ db body t₀,
      login (jwtLib codec) secret t₀ db body = ⟨200, .obj [("token", .str token)]⟩ →
      ∃ u ∈ db.rows, body.email = some u.email ∧
        claimsOf codec token = some ⟨u.id, u.email, t₀, t₀ + oneHour⟩ ∧
        ((verify (jwtLib codec) secret now (some ("Bearer " ++ token))).1.status = 200 ↔
          now < t₀ + oneHour) ∧
        (now < t₀ + oneHour →
          (verify (jwtLib codec) secret now (some ("Bearer " ++ token))).1 =
            ⟨200, validBody (some (.num u.id)) (some (.str u.email))⟩)) ∧
    (∀ (h p sig : String) (l₁ l₂ : List Char) (c c' : Char),
      jsSplit '.' token = [h, p, sig] → p.data = l₁ ++ c :: l₂ →
      (verify (jwtLib codec) secret now (some ("Bearer " ++ token))).1.status = 200 →
      c' ≠ c →
      (codec.mac secret (signingInput h (String.mk (l₁ ++ c' :: l₂))) ≠
          codec.mac secret (signingInput h p) ∨ c' = ' ' ∨ c' = '.') →
      (verify (jwtLib codec) secret now (some ("Bearer " ++
        (signingInput h (String.mk (l₁ ++ c' :: l₂)) ++ "." ++ sig)))).1.status ≠ 200) := by
  refine ⟨verify_status_iff codec secret now token hfree, ?_, ?_, ?_⟩
  · intro c hcl hst
    rcases verify_bearer_cases codec secret now token hfree with ⟨c', _, h2, _, h4⟩ |
      ⟨c', _, _, _, h4⟩ | ⟨_, h4 | h4⟩
    · rw [hcl] at h2
      simp only [Option.some.injEq] at h2
      subst h2
      rw [h4]
    · rw [h4] at hst; simp at hst
    · rw [h4] at hst; simp at hst
    · rw [h4] at hst; simp at hst
  · intro hc db body t₀ hlogin
    obtain ⟨u, hu, he, _, htok⟩ := login_ok_inv codec secret t₀ db body token hlogin
    refine ⟨u, hu, he, ?_, ?_, ?_⟩
    · rw [htok]; exact issued_claims codec hc _ secret
    · rw [htok, issued_verify_handler codec hc _ secret now]
      by_cases hn : now < t₀ + oneHour
      · simp [hn]
      · simp [hn]
    · intro hn
      rw [htok, issued_verify_handler codec hc _ secret now]
      simp [hn]
  · intro h p sig l₁ l₂ c c' hsplit hp hvalid _ hdiff
    exact tamper_fails codec secret now token hfree h p sig l₁ l₂ c c' hsplit hp hvalid hdiff

/-- Witness for claim C1: the space-free token `HS256.bbab.kHS256zdbbab`, which
is accepted at time 0 under the secret `k`, and the same token with the last
character of its payload changed from `b` to `c`, which is not. -/
theorem verify_valid_iff_witness :
    Free ' ' "HS256.bbab.kHS256zdbbab" ∧
    ((verify (jwtLib plainCodec) "k" 0 (some ("Bearer " ++ "HS256.bbab.kHS256zdbbab"))).1.status
        = 200 ↔
      SignatureMatches plainCodec "HS256.bbab.kHS256zdbbab" "k" ∧
        ∃ c, claimsOf plainCodec "HS256.bbab.kHS256zdbbab" = some c ∧ 0 < c.exp) ∧
    (verify (jwtLib plainCodec) "k" 0 (some ("Bearer " ++ "HS256.bbab.kHS256zdbbab"))).1.status
        = 200 ∧
    (verify (jwtLib plainCodec) "k" 0 (some ("Bearer " ++
      (signingInput "HS256" (String.mk (['b', 'b', 'a'] ++ 'c' :: [])) ++ "." ++
        "kHS256zdbbab")))).1.status ≠ 200 :=
  have h := verify_valid_iff plainCodec "k" 0 "HS256.bbab.kHS256zdbbab" (by decide)
  ⟨by decide, h.1, by rfl,
    h.2.2.2 "HS256" "bbab" "kHS256zdbbab" ['b', 'b', 'a'] [] 'b' 'c' (by decide) (by rfl)
      (by rfl) (by decide) (Or.inl (by decide))⟩

/-- Claim C2. A token issued by `/login` and presented to `/verify` under the
same secret once its one hour has passed is answered 401 "Token expired", which
is not the answer 401 "Invalid token"; so is every space-free token whose
signature matches and whose expiry has been reached; and a non-empty space-free
token whose signature does not match is answered 401 "Invalid token". -/
theorem verify_expired (codec : JwtCodec) (hc : codec.Lawful) (secret : String) (db : Db)
    (body : Credentials) (t₀ now : Nat) (tok : String)
    (hlogin : login (jwtLib codec) secret t₀ db body = ⟨200, .obj [("token", .str tok)]⟩)
    (hexp : t₀ + oneHour ≤ now) :
    (verify (jwtLib codec) secret now (some ("Bearer " ++ tok))).1 =
      ⟨401, invalidBody "Token expired"⟩ ∧
    (verify (jwtLib codec) secret now (some ("Bearer " ++ tok))).1 ≠
      ⟨401, invalidBody "Invalid token"⟩ ∧
    (∀ token c, Free ' ' token → SignatureMatches codec token secret →
      claimsOf codec token = some c → c.exp ≤ now →
      (verify (jwtLib codec) secret now (some ("Bearer " ++ token))).1 =
        ⟨401, invalidBody "Token expired"⟩) ∧
    (∀ token, Free ' ' token → token ≠ "" → ¬ SignatureMatches codec token secret →
      (verify (jwtLib codec) secret now (some ("Bearer " ++ token))).1 =
        ⟨401, invalidBody "Invalid token"⟩) := by
  obtain ⟨u, _, _, _, htok⟩ := login_ok_inv codec secret t₀ db body tok hlogin
  have h1 : (verify (jwtLib codec) secret now (some ("Bearer " ++ tok))).1 =
      ⟨401, invalidBody "Token expired"⟩ := by
    rw [htok, issued_verify_handler codec hc _ secret now]
    have : ¬ now < t₀ + oneHour := by omega
    simp [this]
  refine ⟨h1, ?_, ?_, ?_⟩
  · rw [h1]
    simp [invalidBody]
  · intro token c hfree hm hcl hle
    rcases verify_bearer_cases codec secret now token hfree with ⟨c', _, h2, h3, _⟩ |
      ⟨c', _, _, _, h4⟩ | ⟨hn, _⟩
    · rw [hcl] at h2
      simp only [Option.some.injEq] at h2
      subst h2
      omega
    · exact h4
    · exact absurd hm hn
  · intro token hfree hne hn
    rw [verify_bearer _ _ _ _ hfree]
    rcases jwtVerify_cases codec token secret now with ⟨c, hm, _⟩ | ⟨c, hm, _⟩ | ⟨_, h4⟩
    · exact absurd hm hn
    · exact absurd hm hn
    · rw [verifyPiece_error codec secret now token hne _ h4]
      rfl

/-- Witness for claim C2: the token of the test user, issued at time 0 and
presented at time 3600. -/
theorem verify_expired_witness :
    (verify (jwtLib plainCodec) "k" 3600 (some ("Bearer " ++
      (signingInput plainCodec.header
          (plainCodec.encode ⟨1, "test@example.com", 0, 0 + oneHour⟩) ++ "." ++
        plainCodec.mac "k" (signingInput plainCodec.header
          (plainCodec.encode ⟨1, "test@example.com", 0, 0 + oneHour⟩)))))).1 =
      ⟨401, invalidBody "Token expired"⟩ :=
  (verify_expired plainCodec plainCodec_lawful "k" (initDb none)
    ⟨some "test@example.com", some "password"⟩ 0 3600 _ login_test_user (by decide)).1

end Delegation
